import Mathlib

/-
Verification of the libtorrent peer policy engine (src/policy.cpp).

The development shallowly embeds the peer directory, its cached counters and
the public operations of `policy` as pure Lean functions over an explicit
state.  Machine integers of the C++ are modelled as `Nat`/`Int`; the signed
counters (`m_num_connect_candidates`, `m_num_seeds`,
`m_available_free_upload`) are `Int` so that the source's explicit clamping
is visible.  Session/torrent collaborators (filters, connection accessors,
settings, randomness) are snapshot in an `Env` record; the floating point
thresholds `max * 0.95` and `max * 0.9` are modelled by the exact rational
comparisons `20*size ≥ 19*max` and `10*size ≥ 9*max`.  Truncating C division
is `Int.tdiv`.
-/

/-- Source bitmask constants.  Modelled from the spec: the `peer::source`
bitmask "uses externally-defined bit positions for tracker, dht, pex, lsd,
resume_data, incoming" (`peer_info::peer_source_flags` is declared outside
this repository); only distinctness of the bits matters here. -/
def srcTracker : Nat := 1

/-- DHT source bit (see `srcTracker`). -/
def srcDht : Nat := 2

/-- PEX source bit (see `srcTracker`). -/
def srcPex : Nat := 4

/-- LSD source bit (see `srcTracker`). -/
def srcLsd : Nat := 8

/-- Resume-data source bit (see `srcTracker`). -/
def srcResumeData : Nat := 16

/-- Incoming source bit (see `srcTracker`). -/
def srcIncoming : Nat := 32

/-- A TCP endpoint; addresses are encoded as naturals, `0` playing the role
of the default-constructed (unspecified) address. -/
structure Endpoint where
  addr : Nat
  port : Nat
deriving Repr, DecidableEq

/-- One record of the peer directory (`policy::peer`).  Fields the embedded
operations never read or write (`hashfails`, `trust_points`,
`fast_reconnects`, `last_optimistically_unchoked`, `on_parole`,
`is_v6_addr`) are omitted.  `connection` holds the identifier of the live
peer connection, if any; `inetAs` is the cached AS descriptor value used by
`compare_peer` (0 when null). -/
structure Peer where
  addr : Nat
  port : Nat
  connection : Option Nat
  prevAmountDownload : Int
  prevAmountUpload : Int
  lastConnected : Nat
  failcount : Nat
  source : Nat
  connectable : Bool
  seed : Bool
  banned : Bool
  optimisticallyUnchoked : Bool
  peSupport : Bool
  addedToDht : Bool
  inetAs : Nat
deriving Repr, DecidableEq

/-- The `policy::peer` constructor defaults (policy.cpp lines 1448-1479):
zeroed byte counters, no connection, `last_connected = 0`, `failcount = 0`,
`pe_support = true`, all flags clear. -/
def defaultPeer : Peer where
  addr := 0
  port := 0
  connection := none
  prevAmountDownload := 0
  prevAmountUpload := 0
  lastConnected := 0
  failcount := 0
  source := 0
  connectable := false
  seed := false
  banned := false
  optimisticallyUnchoked := false
  peSupport := true
  addedToDht := false
  inetAs := 0

/-- Observable calls placed on collaborators: connection disconnects with
their reason string, `peer_blocked_alert` posts, and DHT node pings. -/
inductive Event where
  | disconnect (cid : Nat) (reason : String)
  | peerBlockedAlert (addr : Nat)
  | dhtPing (addr : Nat) (port : Nat)
deriving Repr, DecidableEq

/-- The mutable state of one `policy` object: the sorted peer directory,
the round-robin cursor, and the cached counters, plus the log of
collaborator calls issued so far. -/
structure PState where
  peers : List Peer
  roundRobin : Nat
  availableFreeUpload : Int
  numConnectCandidates : Int
  numSeeds : Int
  finished : Bool
  events : List Event
deriving Repr, DecidableEq

/-- The freshly constructed policy (policy.cpp lines 346-353). -/
def emptyPState : PState where
  peers := []
  roundRobin := 0
  availableFreeUpload := 0
  numConnectCandidates := 0
  numSeeds := 0
  finished := false
  events := []

/-- Snapshot of the torrent/session collaborators and settings read by the
policy: filters, limits, the share-ratio setting (only ever compared with
zero, hence an `Int`), connection accessors keyed by connection id, and the
values produced by `rand()` during one call. -/
structure Env where
  maxFailcount : Nat
  minReconnectTime : Nat
  maxPeerlistSize : Nat
  maxPausedPeerlistSize : Nat
  allowMultiplePerIp : Bool
  isPaused : Bool
  torrentFinished : Bool
  torrentIsSeed : Bool
  ratioSetting : Int
  portBlocked : Nat → Bool
  ipBlocked : Nat → Bool
  shouldPostPeerBlocked : Bool
  externalAddr : Nat
  randAddr : Nat
  hasAsnumDb : Bool
  peerAs : Nat → Nat
  isLocalAddr : Nat → Bool
  cidrDistance : Nat → Nat → Nat
  torrentNumPeers : Nat
  torrentMaxConnections : Nat
  sesNumConnections : Nat
  sesMaxConnections : Nat
  trackerAddr : Nat
  connRemote : Nat → Endpoint
  connLocal : Nat → Endpoint
  connConnecting : Nat → Bool
  connectToPeerOk : Bool
  newConnId : Nat

/-- The incoming connection handed to `policy::new_connection`: its id, the
two endpoints of its socket, and the flags the admitter reads. -/
structure ConnInfo where
  id : Nat
  remote : Endpoint
  localEp : Endpoint
  isLocal : Bool
  fastReconnect : Bool
deriving Repr, DecidableEq

/-- The closing connection handed to `policy::connection_closed`: its id and
the values of the accessors the handler reads. -/
structure CloseInfo where
  id : Nat
  fastReconnect : Bool
  failed : Bool
  shareDiff : Int
  totalPayloadDownload : Int
  totalPayloadUpload : Int
deriving Repr, DecidableEq

/-- A live peer connection as seen by the free-upload accountant
(`collect_free_download` / `distribute_free_upload`): the observables
`is_peer_interested()` and `share_diff()` plus the free-upload bucket
mutated through `add_free_upload`. -/
structure Conn where
  interested : Bool
  shareDiff : Int
  freeUpload : Int
deriving Repr, DecidableEq

/-- Indexing into the directory with the out-of-range default
`defaultPeer`; every index the source dereferences is in bounds. -/
def getP (l : List Peer) (i : Nat) : Peer :=
  l.getD i defaultPeer

/-- Append an observable collaborator call to the log. -/
def logEvent (st : PState) (e : Event) : PState :=
  { st with events := st.events ++ [e] }

/-- `std::lower_bound` over the address-sorted directory with
`peer_address_compare`: the first index whose address is not below `a`
(`peers.length` when there is none). -/
def lowerBoundIdx (l : List Peer) (a : Nat) : Nat :=
  l.findIdx (fun p => a ≤ p.addr)

/-- Upper bound of the run of records with address `a`: the first index
whose address exceeds `a` (`peers.length` when there is none).  Together
with `lowerBoundIdx` this is `policy::find_peers`.  Modelled from the spec:
`find_peers(address)` "returns the range of records with exactly that
address" (its definition lives in policy.hpp, outside this repository); on
the sorted directory that range is the lower/upper bound pair. -/
def upperBoundIdx (l : List Peer) (a : Nat) : Nat :=
  l.findIdx (fun p => a < p.addr)

/-- `std::find_if` over the index range `[lo, hi)`: the first index in the
range whose record satisfies `f`, and `hi` when there is none. -/
def findIdxInRange (l : List Peer) (lo hi : Nat) (f : Peer → Bool) : Nat :=
  lo + ((l.drop lo).take (hi - lo)).findIdx f

/-- `source_rank` (policy.cpp lines 178-186): trust score of a source
bitmask, OR of tracker=32, lsd=16, dht=8, pex=4. -/
def source_rank (s : Nat) : Nat :=
  (if s.land srcTracker ≠ 0 then 32 else 0) |||
  (if s.land srcLsd ≠ 0 then 16 else 0) |||
  (if s.land srcDht ≠ 0 then 8 else 0) |||
  (if s.land srcPex ≠ 0 then 4 else 0)

/-- `policy::is_connect_candidate` (policy.cpp lines 491-504): dialable
right now — no live connection, not banned, connectable, not a seed of a
finished torrent, failcount below the limit, port not blocked. -/
def is_connect_candidate (env : Env) (p : Peer) (finished : Bool) : Bool :=
  if p.connection.isSome || p.banned || !p.connectable || (p.seed && finished)
      || decide (env.maxFailcount ≤ p.failcount) then
    false
  else if env.portBlocked p.port then
    false
  else
    true

/-- `policy::should_erase_immediately` (policy.cpp lines 425-430). -/
def should_erase_immediately (p : Peer) : Bool :=
  p.source == srcResumeData && p.failcount > 0 && !p.banned

/-- `policy::is_erase_candidate` (policy.cpp lines 432-438).  The source
takes a `finished` argument but reads the cached `m_finished` flag instead;
`mFinished` plays that role. -/
def is_erase_candidate (env : Env) (mFinished : Bool) (pe : Peer) : Bool :=
  pe.connection.isNone && pe.lastConnected ≠ 0 && !pe.banned
    && !is_connect_candidate env pe mFinished

/-- `policy::compare_peer_erase` (policy.cpp lines 1508-1519): `lhs` is the
better eviction victim iff its only source is resume data and the other's
is not, with higher failcount as tie break. -/
def compare_peer_erase (lhs rhs : Peer) : Bool :=
  let lhsResume := lhs.source == srcResumeData
  let rhsResume := rhs.source == srcResumeData
  if lhsResume ≠ rhsResume then lhsResume
  else lhs.failcount > rhs.failcount

/-- `policy::compare_peer` (policy.cpp lines 1522-1554): `lhs` is the better
connect candidate, by lexicographic tie break on failcount, locality, last
attempt time, source rank, AS descriptor (only while unfinished and an AS
database is loaded) and CIDR distance to `externalIp`. -/
def compare_peer (env : Env) (mFinished : Bool) (lhs rhs : Peer)
    (externalIp : Nat) : Bool :=
  if lhs.failcount ≠ rhs.failcount then lhs.failcount < rhs.failcount
  else if env.isLocalAddr lhs.addr ≠ env.isLocalAddr rhs.addr then
    env.isLocalAddr lhs.addr
  else if lhs.lastConnected ≠ rhs.lastConnected then
    lhs.lastConnected < rhs.lastConnected
  else if source_rank lhs.source ≠ source_rank rhs.source then
    source_rank lhs.source > source_rank rhs.source
  else if (!mFinished && env.hasAsnumDb) ∧ lhs.inetAs ≠ rhs.inetAs then
    lhs.inetAs > rhs.inetAs
  else
    env.cidrDistance externalIp lhs.addr < env.cidrDistance externalIp rhs.addr

/-- The reconnect-backoff test of `policy::find_connect_candidate`
(policy.cpp lines 593-596): a record with a recorded previous attempt is
passed over while `session_time - last_connected` is below
`(failcount + 1) * min_reconnect_time`. -/
def reconnect_backoff_skip (sessionTime : Nat) (pe : Peer)
    (minReconnectTime : Nat) : Bool :=
  pe.lastConnected ≠ 0
    && decide ((sessionTime : Int) - (pe.lastConnected : Int)
      < ((pe.failcount : Int) + 1) * (minReconnectTime : Int))

/-- The number of directory records satisfying the connect-candidate
predicate under the finished flag `finished`. -/
def candCount (env : Env) (finished : Bool) (peers : List Peer) : Nat :=
  peers.countP (fun p => is_connect_candidate env p finished)

/-- The §8.3 invariant: the cached `m_num_connect_candidates` equals the
exact number of records satisfying the connect-candidate predicate. -/
def counterExact (env : Env) (st : PState) : Prop :=
  st.numConnectCandidates = (candCount env st.finished st.peers : Int)

instance (env : Env) (st : PState) : Decidable (counterExact env st) := by
  unfold counterExact; infer_instance

/-- `policy::erase_peer(iterator)` (policy.cpp lines 403-423): drop the
record at index `i`, maintaining `num_seeds`, `num_connect_candidates` and
the round-robin cursor.  (The piece picker `clear_peer` notification and
the pool free are not modelled.) -/
def erasePeerAt (env : Env) (i : Nat) (st : PState) : PState :=
  if i < st.peers.length then
    let pe := getP st.peers i
    { st with
      numSeeds := st.numSeeds - (if pe.seed then 1 else 0)
      numConnectCandidates := st.numConnectCandidates -
        (if is_connect_candidate env pe st.finished then 1 else 0)
      roundRobin := if i < st.roundRobin then st.roundRobin - 1 else st.roundRobin
      peers := st.peers.eraseIdx i }
  else st

/-- `policy::erase_peer(peer*)` (policy.cpp lines 389-397): locate the
record with endpoint `(a, port)` in the run of records with address `a` and
drop it; no-op when the lookup fails. -/
def erasePeerRec (env : Env) (a : Nat) (port : Nat) (st : PState) : PState :=
  let lo := lowerBoundIdx st.peers a
  let hi := upperBoundIdx st.peers a
  let i := findIdxInRange st.peers lo hi (fun q => q.addr == a && q.port == port)
  if i = hi then st else erasePeerAt env i st

/-- The peer-list capacity in effect (policy.cpp lines 444-446, 534-536,
930-932): the paused limit while the torrent is paused, the normal limit
otherwise. -/
def effectiveMaxPeerlist (env : Env) : Nat :=
  if env.isPaused then env.maxPausedPeerlistSize else env.maxPeerlistSize

/-- One-pass body of the `policy::erase_peers` sweep (policy.cpp lines
456-485), recursed on the remaining iteration count.  `rr` is the local
cursor, `ec` the remembered eviction candidate (`-1` when none); both are
returned with the updated state. -/
def erasePeersLoop (env : Env) (maxPL : Nat) : Nat → Nat → Int → PState →
    Int × PState
  | 0, _, ec, st => (ec, st)
  | fuel + 1, rr, ec, st =>
    if 20 * st.peers.length < 19 * maxPL then (ec, st)
    else
      let rr := if rr = st.peers.length then 0 else rr
      let pe := getP st.peers rr
      let current := rr
      if is_erase_candidate env st.finished pe
          && (ec == -1 || !compare_peer_erase (getP st.peers ec.toNat) pe) then
        if should_erase_immediately pe then
          let ec := if ec > (current : Int) then ec - 1 else ec
          erasePeersLoop env maxPL fuel (rr + 1) ec (erasePeerAt env current st)
        else
          erasePeersLoop env maxPL fuel (rr + 1) (current : Int) st
      else
        erasePeersLoop env maxPL fuel (rr + 1) ec st

/-- `policy::erase_peers` (policy.cpp lines 440-489): while the directory
holds at least 95% of its configured maximum, sweep up to 300 records from
a random offset, evicting `should_erase_immediately` matches on sight and
remembering the single worst other eraseable record, which is dropped after
the sweep.  `randv` is the value drawn from `rand()` for the starting
offset. -/
def erase_peers (env : Env) (randv : Nat) (st : PState) : PState :=
  let maxPL := effectiveMaxPeerlist env
  if maxPL = 0 ∨ st.peers.isEmpty then st
  else
    let rr0 := randv % st.peers.length
    let r := erasePeersLoop env maxPL (min st.peers.length 300) rr0 (-1) st
    if r.1 > -1 then erasePeerAt env r.1.toNat r.2 else r.2

/-- The DHT step of the `policy::find_connect_candidate` sweep (policy.cpp
lines 546-558): ping the record under the cursor once per call if it was
never pinged, marking it.  (The source guards the store with
`!pinged && pinged2`, which is equivalent to `!pinged && !pe.added_to_dht`.)
Returns the updated `pinged` flag and state. -/
def fccDht (env : Env) (pinged : Bool) (st : PState) : Bool × PState :=
  let pe := getP st.peers st.roundRobin
  if !pinged && !pe.addedToDht then
    (true,
     { logEvent st (.dhtPing pe.addr pe.port) with
       peers := st.peers.set st.roundRobin { pe with addedToDht := true } })
  else (pinged, st)

/-- The opportunistic-eviction step of the `find_connect_candidate` sweep
(policy.cpp lines 562-580), identical to the `erase_peers` body but
adjusting the running best-candidate index as well: evaluate the record
under the cursor when the directory is ≥ 95% full.  Returns the adjusted
candidate and eviction-candidate indices and the state. -/
def fccEraseEval (env : Env) (maxPL : Nat) (candidate ec : Int) (st : PState) :
    Int × Int × PState :=
  let current := st.roundRobin
  let pe := getP st.peers current
  if 20 * st.peers.length ≥ 19 * maxPL ∧ maxPL > 0 then
    if is_erase_candidate env st.finished pe
        && (ec == -1 || !compare_peer_erase (getP st.peers ec.toNat) pe) then
      if should_erase_immediately pe then
        (if candidate > (current : Int) then candidate - 1 else candidate,
         if ec > (current : Int) then ec - 1 else ec,
         erasePeerAt env current st)
      else (candidate, (current : Int), st)
    else (candidate, ec, st)
  else (candidate, ec, st)

/-- One iteration of the `find_connect_candidate` sweep (policy.cpp lines
538-599): wrap the cursor, run the DHT and eviction steps, advance the
cursor, and unless the record fails the connect-candidate test, loses
against the running best under `compare_peer`, or is inside its reconnect
backoff, make it the new best.  `pe` is the value of the record before a
possible immediate eviction, exactly as the source's dangling reference
reads it. -/
def fccStep (env : Env) (maxPL mrt eip t : Nat) (pinged : Bool)
    (candidate ec : Int) (st : PState) : Bool × Int × Int × PState :=
  let st := if st.roundRobin = st.peers.length then { st with roundRobin := 0 }
            else st
  let current := st.roundRobin
  let d := fccDht env pinged st
  let pinged2 := d.1
  let st := d.2
  let pe := getP st.peers current
  let r := fccEraseEval env maxPL candidate ec st
  let candidate := r.1
  let ec := r.2.1
  let st := r.2.2
  let st := { st with roundRobin := st.roundRobin + 1 }
  if !is_connect_candidate env pe st.finished then (pinged2, candidate, ec, st)
  else if candidate ≠ -1
      && compare_peer env st.finished (getP st.peers candidate.toNat) pe eip then
    (pinged2, candidate, ec, st)
  else if reconnect_backoff_skip t pe mrt then (pinged2, candidate, ec, st)
  else (pinged2, (current : Int), ec, st)

/-- The `find_connect_candidate` sweep, recursed on the remaining iteration
count; returns the best candidate index and pending eviction index (both
`-1` for none) with the updated state. -/
def fccLoop (env : Env) (maxPL mrt eip t : Nat) :
    Nat → Bool → Int → Int → PState → Int × Int × PState
  | 0, _, candidate, ec, st => (candidate, ec, st)
  | fuel + 1, pinged, candidate, ec, st =>
    let r := fccStep env maxPL mrt eip t pinged candidate ec st
    fccLoop env maxPL mrt eip t fuel r.1 r.2.1 r.2.2.1 r.2.2.2

/-- `policy::find_connect_candidate` (policy.cpp lines 506-622): advance
`m_round_robin` over up to 300 records keeping the best connect candidate
under `compare_peer`, with the opportunistic eviction of `erase_peers`
folded into the sweep; returns the chosen index, `none` for the end
sentinel.  When the torrent is finished or no external address is known,
the randomised address `env.randAddr` seeds the CIDR tie break. -/
def find_connect_candidate (env : Env) (sessionTime : Nat) (st : PState) :
    Option Nat × PState :=
  let externalIp := if st.finished || env.externalAddr == 0 then env.randAddr
                    else env.externalAddr
  let st := if st.roundRobin = st.peers.length then { st with roundRobin := 0 }
            else st
  let maxPL := effectiveMaxPeerlist env
  let r := fccLoop env maxPL env.minReconnectTime externalIp sessionTime
    (min st.peers.length 300) false (-1) (-1) st
  let candidate := r.1
  let ec := r.2.1
  let st := r.2.2
  if ec > -1 then
    let candidate := if candidate > ec then candidate - 1 else candidate
    let st := erasePeerAt env ec.toNat st
    (if candidate = -1 then none else some candidate.toNat, st)
  else
    (if candidate = -1 then none else some candidate.toNat, st)

/-- `policy::connect_one_peer` (policy.cpp lines 1194-1220): dial the record
chosen by `find_connect_candidate`.  On success the torrent attaches the
new connection to the record (witnessed by the `p.connection` assertion
after `connect_to_peer`) and the candidate counter is decremented; on
failure the record's failcount saturates upward at 31. -/
def connect_one_peer (env : Env) (sessionTime : Nat) (st : PState) :
    Bool × PState :=
  let r := find_connect_candidate env sessionTime st
  match r.1 with
  | none => (false, r.2)
  | some i =>
    let st := r.2
    if env.connectToPeerOk then
      (true,
       { st with
         peers := st.peers.set i
           { getP st.peers i with connection := some env.newConnId }
         numConnectCandidates := st.numConnectCandidates - 1 })
    else
      let p := getP st.peers i
      let p := if p.failcount < 31 then { p with failcount := p.failcount + 1 }
               else p
      (false, { st with peers := st.peers.set i p })

/-- The directory lookup shared by `policy::new_connection` (policy.cpp
lines 698-715) and `policy::add_peer` (lines 934-949): with multiple
connections per IP the exact endpoint is searched in the run of records
with that address; otherwise `std::lower_bound` by address with a match on
the address alone. -/
def findEndpoint (env : Env) (peers : List Peer) (remote : Endpoint) :
    Option Nat :=
  if env.allowMultiplePerIp then
    let lo := lowerBoundIdx peers remote.addr
    let hi := upperBoundIdx peers remote.addr
    let i := findIdxInRange peers lo hi
      (fun q => q.addr == remote.addr && q.port == remote.port)
    if i ≠ hi then some i else none
  else
    let it := lowerBoundIdx peers remote.addr
    if it < peers.length ∧ (getP peers it).addr = remote.addr then some it
    else none

/-- The insertion point used when `findEndpoint` fails: the end of the run
of records with that address (multiple-per-IP) or the `std::lower_bound`
position. -/
def insertPos (env : Env) (peers : List Peer) (a : Nat) : Nat :=
  if env.allowMultiplePerIp then upperBoundIdx peers a else lowerBoundIdx peers a

/-- The common tail of `policy::new_connection` (policy.cpp lines 830-840):
fold the record's previous-session byte counters into the connection
(`add_stat`, not modelled on the connection side), zero them, attach the
connection and stamp `last_connected` unless this is a fast reconnect. -/
def ncAttach (c : ConnInfo) (sessionTime : Nat) (idx : Nat) (st : PState) :
    Bool × PState :=
  let p := getP st.peers idx
  let p := { p with
    prevAmountDownload := 0
    prevAmountUpload := 0
    connection := some c.id
    lastConnected := if c.fastReconnect then p.lastConnected else sessionTime }
  (true, { st with peers := st.peers.set idx p })

/-- The tail of the existing-record branch of `policy::new_connection`
(policy.cpp lines 777-840): decrement the candidate counter unless it is
already zero, then attach. -/
def ncFoundTail (c : ConnInfo) (sessionTime : Nat) (idx : Nat) (st : PState) :
    Bool × PState :=
  let st := { st with numConnectCandidates :=
    if st.numConnectCandidates > 0 then st.numConnectCandidates - 1
    else st.numConnectCandidates }
  ncAttach c sessionTime idx st

/-- `policy::new_connection` (policy.cpp lines 662-841): admit or reject an
inbound connection.  Socket endpoint queries are modelled as error-free, so
the `ec1`/`ec2` error branches are not taken. -/
def new_connection (env : Env) (c : ConnInfo) (sessionTime : Nat)
    (st : PState) : Bool × PState :=
  if env.torrentNumPeers ≥ env.torrentMaxConnections
      ∧ env.sesNumConnections ≥ env.sesMaxConnections
      ∧ c.remote.addr ≠ env.trackerAddr then
    (false, logEvent st
      (.disconnect c.id "too many connections, refusing incoming connection"))
  else
    match findEndpoint env st.peers c.remote with
    | some idx =>
      let i := getP st.peers idx
      if i.banned then
        (false, logEvent st (.disconnect c.id "ip address banned, closing"))
      else
        match i.connection with
        | none => ncFoundTail c sessionTime idx st
        | some j =>
          if env.connRemote j = c.localEp ∨ env.connLocal j = c.remote then
            (false, logEvent
              (logEvent st (.disconnect c.id "connected to ourselves"))
              (.disconnect j "connected to ourselves"))
          else if ¬ env.connConnecting j ∨ c.isLocal then
            (false, logEvent st (.disconnect c.id "duplicate connection, closing"))
          else
            ncFoundTail c sessionTime idx (logEvent st (.disconnect j
              "incoming duplicate connection with higher priority, closing"))
    | none =>
      if st.peers.length ≥ env.maxPeerlistSize then
        (false, logEvent st
          (.disconnect c.id "peer list size exceeded, refusing incoming connection"))
      else
        let pos := insertPos env st.peers c.remote.addr
        let st := if st.roundRobin > pos then
            { st with roundRobin := st.roundRobin + 1 }
          else st
        let newp : Peer := { defaultPeer with
          addr := c.remote.addr
          port := c.remote.port
          connectable := false
          source := srcIncoming
          inetAs := env.peerAs c.remote.addr }
        let st := { st with peers := st.peers.insertIdx pos newp }
        ncAttach c sessionTime pos st

/-- The counter adjustment shared by `update_peer_port` (policy.cpp lines
879-883) and the found branch of `add_peer` (lines 1066-1070): when
connect-candidate membership changed, add or subtract one and clamp at
zero. -/
def ccAdjust (cc : Int) (was now : Bool) : Int :=
  if was ≠ now then
    (let v := cc + (if was then (-1 : Int) else 1)
     if v < 0 then 0 else v)
  else cc

/-- The record update of `update_peer_port` (policy.cpp lines 876-877):
store the new port and OR the source bit. -/
def uppUpdatedPeer (newPort src : Nat) (p : Peer) : Peer :=
  { p with port := newPort, source := p.source ||| src }

/-- The tail of `policy::update_peer_port` (policy.cpp lines 875-884):
store the new port, OR the source bit, and adjust the candidate counter by
the change in connect-candidate membership, clamping at zero. -/
def uppFinish (env : Env) (newPort : Nat) (src : Nat) (idx : Nat)
    (st : PState) : Bool × PState :=
  let p := getP st.peers idx
  let p2 := uppUpdatedPeer newPort src p
  (true,
   { st with
     peers := st.peers.set idx p2
     numConnectCandidates := ccAdjust st.numConnectCandidates
       (is_connect_candidate env p st.finished)
       (is_connect_candidate env p2 st.finished) })

/-- `policy::update_peer_port` (policy.cpp lines 843-885): relocate the
record at `idx` to its advertised listen port.  With multiple connections
per IP a record already at `(address, new_port)` is erased when
connectionless and causes a duplicate rejection otherwise.  The source
compares the `std::find_if` result against `m_peers.end()` instead of the
range's end; the embedding mirrors that check. -/
def update_peer_port (env : Env) (newPort : Nat) (idx : Nat) (src : Nat)
    (st : PState) : Bool × PState :=
  let p := getP st.peers idx
  if p.port = newPort then (true, st)
  else if env.allowMultiplePerIp then
    let lo := lowerBoundIdx st.peers p.addr
    let hi := upperBoundIdx st.peers p.addr
    let i := findIdxInRange st.peers lo hi
      (fun q => q.addr == p.addr && q.port == newPort)
    if i ≠ st.peers.length then
      let pp := getP st.peers i
      if pp.connection.isSome then
        (false, logEvent st
          (.disconnect (p.connection.getD 0) "duplicate connection"))
      else
        let st := erasePeerAt env i st
        let idx := if i < idx then idx - 1 else idx
        uppFinish env newPort src idx st
    else uppFinish env newPort src idx st
  else uppFinish env newPort src idx st

/-- The record built by the fresh branch of `add_peer` (policy.cpp lines
990-1002): `peer(port, true, src)` plus the optional encryption and seed
flags. -/
def apFreshPeer (env : Env) (remote : Endpoint) (src flags : Nat) : Peer :=
  let p0 : Peer := { defaultPeer with
    addr := remote.addr
    port := remote.port
    connectable := true
    source := src
    inetAs := env.peerAs remote.addr }
  let p0 := if flags.land 1 ≠ 0 then { p0 with peSupport := true } else p0
  if flags.land 2 ≠ 0 then { p0 with seed := true } else p0

/-- The fresh-record branch of `policy::add_peer` (policy.cpp lines
970-1017): advance the cursor past the insertion point, insert the freshly
built record, and bump the counters. -/
def apInsertFresh (env : Env) (remote : Endpoint) (src : Nat) (flags : Nat)
    (pos : Nat) (st : PState) : Option Nat × PState :=
  let st := if st.roundRobin > pos then { st with roundRobin := st.roundRobin + 1 }
            else st
  let p0 := apFreshPeer env remote src flags
  let st := { st with
    peers := st.peers.insertIdx pos p0
    numSeeds := st.numSeeds + (if flags.land 2 ≠ 0 then 1 else 0)
    numConnectCandidates := st.numConnectCandidates +
      (if is_connect_candidate env p0 st.finished then 1 else 0) }
  (some pos, st)

/-- The in-place record refresh of the found branch of `add_peer`
(policy.cpp lines 1023-1045), returning the new record and the `num_seeds`
increment: mark connectable, refresh port, OR the source, forgive one
failure on a tracker re-announce, promote to seed when flagged and
unconnected. -/
def apUpdatedPeer (remote : Endpoint) (src flags : Nat) (p : Peer) :
    Peer × Int :=
  let i := { p with connectable := true, port := remote.port,
                    source := p.source ||| src }
  let i := if i.failcount > 0 ∧ src = srcTracker then
      { i with failcount := i.failcount - 1 }
    else i
  if flags.land 2 ≠ 0 ∧ i.connection = none then
    (if i.seed then (i, 0) else ({ i with seed := true }, 1))
  else (i, 0)

/-- The existing-record branch of `policy::add_peer` (policy.cpp lines
1019-1071): refresh the record in place and adjust the candidate counter
by the membership change, clamping at zero. -/
def apUpdateFound (env : Env) (remote : Endpoint) (src : Nat) (flags : Nat)
    (idx : Nat) (st : PState) : Option Nat × PState :=
  let old := getP st.peers idx
  let r := apUpdatedPeer remote src flags old
  (some idx,
   { st with peers := st.peers.set idx r.1
             numSeeds := st.numSeeds + r.2
             numConnectCandidates := ccAdjust st.numConnectCandidates
               (is_connect_candidate env old st.finished)
               (is_connect_candidate env r.1 st.finished) })

/-- `policy::add_peer` (policy.cpp lines 898-1074): admit a peer reported
by an external source.  Invalid or filtered endpoints are rejected (with a
`peer_blocked_alert` when the alert stream accepts one), an existing record
is refreshed in place, and a fresh record is inserted, running the
`erase_peers` sweep first when the directory is at its configured
capacity — except that resume-data entries are simply refused then. -/
def add_peer (env : Env) (randv : Nat) (remote : Endpoint) (src : Nat)
    (flags : Nat) (st : PState) : Option Nat × PState :=
  if remote.addr = 0 ∨ remote.port = 0 then (none, st)
  else if env.portBlocked remote.port then
    (none, if env.shouldPostPeerBlocked then
             logEvent st (.peerBlockedAlert remote.addr)
           else st)
  else if env.ipBlocked remote.addr then
    (none, if env.shouldPostPeerBlocked then
             logEvent st (.peerBlockedAlert remote.addr)
           else st)
  else
    let maxPL := effectiveMaxPeerlist env
    match findEndpoint env st.peers remote with
    | some idx => apUpdateFound env remote src flags idx st
    | none =>
      if maxPL ≠ 0 ∧ st.peers.length ≥ maxPL then
        if src = srcResumeData then (none, st)
        else
          let st2 := erase_peers env randv st
          if st2.peers.length ≥ maxPL then (none, st2)
          else apInsertFresh env remote src flags
            (lowerBoundIdx st2.peers remote.addr) st2
      else apInsertFresh env remote src flags (insertPos env st.peers remote.addr) st

/-- The record update of `policy::connection_closed` (policy.cpp lines
1240-1270): clear the connection and the optimistic-unchoke flag, restamp
`last_connected` unless fast reconnect, saturate the failcount upward on
failure, and fold the payload totals into the `prev_amount_*` fields.  (The
source folds the byte counters after the candidate test; the candidate
predicate does not read them, so using the folded record for the test below
is equivalent.) -/
def ccClosedPeer (c : CloseInfo) (sessionTime : Nat) (p : Peer) : Peer :=
  let p := { p with connection := none, optimisticallyUnchoked := false }
  let p := if c.fastReconnect then p else { p with lastConnected := sessionTime }
  let p := if c.failed then
      (if p.failcount < 31 then { p with failcount := p.failcount + 1 } else p)
    else p
  { p with
    prevAmountDownload := p.prevAmountDownload + c.totalPayloadDownload
    prevAmountUpload := p.prevAmountUpload + c.totalPayloadUpload }

/-- `policy::connection_closed` (policy.cpp lines 1223-1282): detach the
connection from its record, re-admit the record to the candidate count,
account the share difference into `m_available_free_upload` when a ratio is
enforced, and drop records whose only source is resume data when seeding or
≥ 90% full. -/
def connection_closed (env : Env) (c : CloseInfo) (sessionTime : Nat)
    (st : PState) : PState :=
  match st.peers.findIdx? (fun p => p.connection == some c.id) with
  | none => st
  | some idx =>
    let p := ccClosedPeer c sessionTime (getP st.peers idx)
    let st2 := { st with
      peers := st.peers.set idx p
      numConnectCandidates := st.numConnectCandidates +
        (if is_connect_candidate env p st.finished then 1 else 0)
      availableFreeUpload := st.availableFreeUpload +
        (if env.ratioSetting ≠ 0 then c.shareDiff else 0) }
    if env.torrentIsSeed ∨ 10 * st2.peers.length ≥ 9 * env.maxPeerlistSize then
      if p.source = srcResumeData then erasePeerRec env p.addr p.port st2 else st2
    else st2

/-- `policy::recalculate_connect_candidates` (policy.cpp lines 1300-1312):
zero the counter, and only when `torrent.is_finished()` differs from the
cached flag, update the flag and recount the candidates. -/
def recalculate_connect_candidates (env : Env) (st : PState) : PState :=
  let st := { st with numConnectCandidates := 0 }
  let isFinished := env.torrentFinished
  if isFinished = st.finished then st
  else
    { st with finished := isFinished,
              numConnectCandidates := (candCount env isFinished st.peers : Int) }

/-- `collect_free_download` (policy.cpp lines 73-96): take the positive
share surplus away from every peer that is not interested in us,
accumulating it; interested or non-surplus peers are untouched. -/
def collect_free_download : List Conn → List Conn × Int
  | [] => ([], 0)
  | p :: rest =>
    let r := collect_free_download rest
    if p.interested || p.shareDiff ≤ 0 then (p :: r.1, r.2)
    else ({ p with freeUpload := p.freeUpload - p.shareDiff } :: r.1,
          r.2 + p.shareDiff)

/-- The crediting loop of `distribute_free_upload` (policy.cpp lines
130-136): give `share` to every peer that is interested with negative
share difference, subtracting it from the pool each time. -/
def distLoop (share : Int) : List Conn → Int → List Conn × Int
  | [], fu => ([], fu)
  | p :: rest, fu =>
    if p.interested && p.shareDiff < 0 then
      let r := distLoop share rest (fu - share)
      ({ p with freeUpload := p.freeUpload + share } :: r.1, r.2)
    else
      let r := distLoop share rest fu
      (p :: r.1, r.2)

/-- The eligibility test of `distribute_free_upload` (policy.cpp lines 114,
133): a net receiver that is interested in us. -/
def distEligible (p : Conn) : Bool :=
  p.interested && p.shareDiff < 0

/-- `total_diff` of `distribute_free_upload` (policy.cpp lines 108-113):
the sum of `share_diff()` over all peers. -/
def totalDiffOf (conns : List Conn) : Int :=
  conns.foldl (fun acc p => acc + p.shareDiff) 0

/-- `num_peers` of `distribute_free_upload` (policy.cpp lines 107-116):
the number of eligible peers. -/
def eligibleCount (conns : List Conn) : Nat :=
  conns.countP distEligible

/-- `upload_share` of `distribute_free_upload` (policy.cpp lines 119-127):
the C truncating division of `min(pool, total_diff)` (total nonnegative) or
`pool + total_diff` (total negative) by the eligible count. -/
def uploadShareOf (conns : List Conn) (pool : Int) : Int :=
  if 0 ≤ totalDiffOf conns then
    Int.tdiv (min pool (totalDiffOf conns)) (eligibleCount conns)
  else Int.tdiv (pool + totalDiffOf conns) (eligibleCount conns)

/-- `distribute_free_upload` (policy.cpp lines 101-138): split the free
upload pool among the net receivers that are interested in us and return
the unused remainder; nonpositive pools, the absence of eligible peers and
a negative per-peer share leave everything untouched. -/
def distribute_free_upload (conns : List Conn) (freeUpload : Int) :
    List Conn × Int :=
  if freeUpload ≤ 0 then (conns, freeUpload)
  else if eligibleCount conns = 0 then (conns, freeUpload)
  else if uploadShareOf conns freeUpload < 0 then (conns, freeUpload)
  else distLoop (uploadShareOf conns freeUpload) conns freeUpload

/-- `policy::pulse` (policy.cpp lines 624-660): when the torrent enforces a
share ratio, collect the free download into `m_available_free_upload`,
redistribute it, and store the remainder back; then run the eviction
sweep. -/
def pulse (env : Env) (randv : Nat) (conns : List Conn) (st : PState) :
    List Conn × PState :=
  if env.ratioSetting ≠ 0 then
    let r := collect_free_download conns
    let avail := st.availableFreeUpload + r.2
    let d := distribute_free_upload r.1 avail
    (d.1, erase_peers env randv { st with availableFreeUpload := d.2 })
  else (conns, erase_peers env randv st)

/-- The connection observables read by `request_a_block` up to the
`pick_pieces` call. -/
structure ReqConn where
  noDownload : Bool
  desiredQueueSize : Nat
  downloadQueueLen : Nat
  requestQueueLen : Nat
  hasPeerChoked : Bool
  bitfield : List Bool
  allowedFast : List Nat
deriving Repr, DecidableEq

/-- The choked-peer candidate mask of `request_a_block` (policy.cpp lines
257-261): a cleared bitfield of the same size with exactly the
allowed-fast pieces the peer has set. -/
def buildAllowedMask (bits : List Bool) (fast : List Nat) : List Bool :=
  fast.foldl (fun m i => if bits.getD i false then m.set i true else m)
    (List.replicate bits.length false)

/-- The prefix of `request_a_block` (policy.cpp lines 192-280) that decides
the bitmask handed to `piece_picker::pick_pieces`: `none` when the function
returns before consulting the picker (seeding torrent, no-download peer, or
a full request queue), otherwise the mask passed to the picker — the
allowed-fast mask when the peer has choked us, the raw bitfield
otherwise. -/
def request_a_block_mask (torrentIsSeedFlag : Bool) (c : ReqConn) :
    Option (List Bool) :=
  if torrentIsSeedFlag then none
  else if c.noDownload then none
  else
    let numRequests : Int := (c.desiredQueueSize : Int)
      - (c.downloadQueueLen : Int) - (c.requestQueueLen : Int)
    if numRequests ≤ 0 then none
    else if c.hasPeerChoked then some (buildAllowedMask c.bitfield c.allowedFast)
    else some c.bitfield

/-! ### Concrete fixtures used by the claim theorems -/

/-- A baseline collaborator snapshot: nothing filtered, generous limits,
multiple connections per IP off, torrent unfinished and unpaused, share
ratio not enforced. -/
def envBase : Env where
  maxFailcount := 3
  minReconnectTime := 60
  maxPeerlistSize := 10
  maxPausedPeerlistSize := 5
  allowMultiplePerIp := false
  isPaused := false
  torrentFinished := false
  torrentIsSeed := false
  ratioSetting := 0
  portBlocked := fun _ => false
  ipBlocked := fun _ => false
  shouldPostPeerBlocked := true
  externalAddr := 5
  randAddr := 7
  hasAsnumDb := false
  peerAs := fun _ => 0
  isLocalAddr := fun _ => false
  cidrDistance := fun _ _ => 0
  torrentNumPeers := 0
  torrentMaxConnections := 50
  sesNumConnections := 0
  sesMaxConnections := 50
  trackerAddr := 999
  connRemote := fun _ => ⟨0, 0⟩
  connLocal := fun _ => ⟨0, 0⟩
  connConnecting := fun _ => false
  connectToPeerOk := true
  newConnId := 77

/-- An inbound connection from address 5. -/
def c1Conn1 : ConnInfo := ⟨1, ⟨5, 100⟩, ⟨9, 9⟩, false, false⟩

/-- A later inbound connection from the same address 5. -/
def c1Conn2 : ConnInfo := ⟨2, ⟨5, 300⟩, ⟨9, 9⟩, false, false⟩

/-- The close of the first connection, without failure. -/
def c1Close : CloseInfo := ⟨1, false, false, 0, 0, 0⟩

/-- Reachable state 1: the first inbound connection admitted into an empty
directory (record for address 5, `connectable = false`). -/
def c1Step1 : PState := (new_connection envBase c1Conn1 10 emptyPState).2

/-- Reachable state 2: that connection closed again. -/
def c1Step2 : PState := connection_closed envBase c1Close 20 c1Step1

/-- Reachable state 3: a tracker peer at address 7 added; it is the only
connect candidate, and the cached counter is exactly 1. -/
def c1Step3 : PState := (add_peer envBase 0 ⟨7, 200⟩ srcTracker 0 c1Step2).2

/-- A directory holding exactly one connect candidate with an exact
counter, under a torrent whose finished flag matches the cache. -/
def c2State : PState := { emptyPState with
  peers := [{ defaultPeer with addr := 1, port := 1, connectable := true }]
  numConnectCandidates := 1 }

/-- Capacity-3 environment of the eviction scenario. -/
def envC3 : Env := { envBase with maxPeerlistSize := 3 }

/-- Scenario record r1: tracker source, failcount 0. -/
def c3r1 : Peer :=
  { defaultPeer with addr := 1, port := 10, connectable := true, source := srcTracker }

/-- Scenario record r2: resume-data source, failcount 1. -/
def c3r2 : Peer :=
  { defaultPeer with
    addr := 2
    port := 10
    connectable := true
    source := srcResumeData
    failcount := 1 }

/-- Scenario record r3: DHT source, failcount 0. -/
def c3r3 : Peer :=
  { defaultPeer with addr := 3, port := 10, connectable := true, source := srcDht }

/-- The scenario directory {r1, r2, r3} at capacity, with the exact
candidate count 3. -/
def c3State : PState :=
  { emptyPState with peers := [c3r1, c3r2, c3r3], numConnectCandidates := 3 }

/-- The distribute counterexample peer: interested, share_diff −100. -/
def c4Peer : Conn := ⟨true, -100, 0⟩

/-- Spec scenario 5: P1 interested −100, P2 not interested +80, P3
interested −40. -/
def c4Scenario : List Conn := [⟨true, -100, 0⟩, ⟨false, 80, 0⟩, ⟨true, -40, 0⟩]

/-- A record for address 5 with a live connection (id 3). -/
def c5Peer : Peer :=
  { defaultPeer with addr := 5, port := 100, connection := some 3, connectable := true }

/-- Directory holding only `c5Peer`. -/
def c5State : PState := { emptyPState with peers := [c5Peer] }

/-- The new inbound connection from address 5 with local endpoint (7, 42). -/
def c5NewConn : ConnInfo := ⟨9, ⟨5, 100⟩, ⟨7, 42⟩, false, false⟩

/-- Environment in which the existing connection's remote endpoint equals
the new socket's local endpoint: a self-connection. -/
def envC5self : Env := { envBase with connRemote := fun _ => ⟨7, 42⟩ }

/-- Environment in which the existing connection is still connecting. -/
def envC5keep : Env := { envBase with connConnecting := fun _ => true }

/-- Multiple-connections-per-IP environment. -/
def envMulti : Env := { envBase with allowMultiplePerIp := true }

/-- A connected record at (4, 10) that will learn listen port 20. -/
def c6p0 : Peer :=
  { defaultPeer with addr := 4, port := 10, connection := some 5, connectable := true }

/-- A connectionless record already at (4, 20). -/
def c6p1 : Peer := { defaultPeer with addr := 4, port := 20, connectable := true }

/-- Directory with both records of the port-update scenario. -/
def c6State : PState := { emptyPState with peers := [c6p0, c6p1] }

/-- A record like `c6p1` but with a live connection (id 8). -/
def c6p1c : Peer := { c6p1 with connection := some 8 }

/-- The port-update scenario where the other record is connected. -/
def c6StateC : PState := { emptyPState with peers := [c6p0, c6p1c] }

/-- Environment blocking exactly port 13. -/
def envPortBlock : Env := { envBase with portBlocked := fun p => p == 13 }

/-- Environment blocking exactly address 66. -/
def envIpBlock : Env := { envBase with ipBlocked := fun a => a == 66 }

/-- Capacity-1 environment. -/
def envCap1 : Env := { envBase with maxPeerlistSize := 1 }

/-- A one-record directory, at capacity under `envCap1`. -/
def c7State : PState := { emptyPState with
  peers := [{ defaultPeer with
              addr := 2
              port := 7
              connectable := true
              source := srcTracker }]
  numConnectCandidates := 1 }

/-- The backoff record of spec scenario 3: failcount 2, last_connected
100. -/
def c8Record : Peer := { defaultPeer with failcount := 2, lastConnected := 100 }

/-- A never-connected record (`last_connected = 0`). -/
def c8Fresh : Peer := { defaultPeer with connectable := true }

/-- Peer C of spec scenario 6: bitfield {3, 5, 9} (length 10), allowed-fast
[5, 9], has choked us. -/
def rcC9 : ReqConn :=
  ⟨false, 5, 0, 0, true,
   [false, false, false, true, false, true, false, false, false, true], [5, 9]⟩

/-- Ratio-enforcing environment. -/
def envRatio : Env := { envBase with ratioSetting := 2 }

/-- A record at (8, 80) with live connection 4. -/
def c10Peer : Peer :=
  { defaultPeer with addr := 8, port := 80, connection := some 4, connectable := true }

/-- Directory holding only `c10Peer`. -/
def c10State : PState := { emptyPState with peers := [c10Peer] }

/-- The close of connection 4: share_diff 55, payload totals 1000/2000. -/
def c10Close : CloseInfo := ⟨4, false, false, 55, 1000, 2000⟩

/-! ### General list lemmas used by the invariant proofs -/

theorem plist_getD_set_self {α : Type} (d : α) :
    ∀ (l : List α) (i : Nat) (x : α), i < l.length →
      (l.set i x).getD i d = x := by
  intro l
  induction l with
  | nil => intro i x h; simp at h
  | cons a t ih =>
    intro i x h
    cases i with
    | zero => simp
    | succ n =>
      simp only [List.set_cons_succ, List.getD_cons_succ]
      exact ih n x (by simpa using h)

theorem plist_getD_set_ne {α : Type} (d : α) :
    ∀ (l : List α) (i j : Nat) (x : α), i ≠ j →
      (l.set i x).getD j d = l.getD j d := by
  intro l
  induction l with
  | nil => intro i j x _; simp
  | cons a t ih =>
    intro i j x hne
    cases i with
    | zero =>
      cases j with
      | zero => exact absurd rfl hne
      | succ m => simp
    | succ n =>
      cases j with
      | zero => simp
      | succ m =>
        simp only [List.set_cons_succ, List.getD_cons_succ]
        exact ih n m x (by omega)

theorem plist_getD_eraseIdx_of_lt {α : Type} (d : α) :
    ∀ (l : List α) (j m : Nat), m < j →
      (l.eraseIdx j).getD m d = l.getD m d := by
  intro l
  induction l with
  | nil => intro j m _; simp
  | cons a t ih =>
    intro j m hm
    cases j with
    | zero => omega
    | succ n =>
      cases m with
      | zero => simp
      | succ k =>
        simp only [List.eraseIdx_cons_succ, List.getD_cons_succ]
        exact ih n k (by omega)

theorem plist_getD_eraseIdx_of_ge {α : Type} (d : α) :
    ∀ (l : List α) (j m : Nat), j ≤ m →
      (l.eraseIdx j).getD m d = l.getD (m + 1) d := by
  intro l
  induction l with
  | nil => intro j m _; simp
  | cons a t ih =>
    intro j m hm
    cases j with
    | zero => simp
    | succ n =>
      cases m with
      | zero => omega
      | succ k =>
        simp only [List.eraseIdx_cons_succ, List.getD_cons_succ]
        exact ih n k (by omega)

theorem plist_countP_set {α : Type} (d : α) (f : α → Bool) :
    ∀ (l : List α) (i : Nat) (x : α), i < l.length →
      ((l.set i x).countP f : Int)
        = (l.countP f : Int) + (if f x then 1 else 0)
          - (if f (l.getD i d) then 1 else 0) := by
  intro l
  induction l with
  | nil => intro i x h; simp at h
  | cons a t ih =>
    intro i x h
    cases i with
    | zero =>
      simp only [List.set_cons_zero, List.getD_cons_zero, List.countP_cons]
      push_cast
      by_cases hx : f x <;> by_cases ha : f a <;> simp [hx, ha] <;> omega
    | succ n =>
      have hn : n < t.length := by simpa using h
      simp only [List.set_cons_succ, List.getD_cons_succ, List.countP_cons]
      have := ih n x hn
      push_cast at this ⊢
      by_cases hx : f x <;> by_cases ha : f a <;>
        simp only [hx, ha, if_true, if_false] at this ⊢ <;> omega

theorem plist_countP_eraseIdx {α : Type} (d : α) (f : α → Bool) :
    ∀ (l : List α) (i : Nat), i < l.length →
      ((l.eraseIdx i).countP f : Int)
        = (l.countP f : Int) - (if f (l.getD i d) then 1 else 0) := by
  intro l
  induction l with
  | nil => intro i h; simp at h
  | cons a t ih =>
    intro i h
    cases i with
    | zero =>
      simp only [List.eraseIdx_cons_zero, List.getD_cons_zero, List.countP_cons]
      by_cases ha : f a <;> simp [ha]
    | succ n =>
      have hn : n < t.length := by simpa using h
      simp only [List.eraseIdx_cons_succ, List.getD_cons_succ, List.countP_cons]
      have := ih n hn
      push_cast at this ⊢
      by_cases hg : f (t.getD n d) <;> by_cases ha : f a <;>
        simp only [hg, ha, if_true, if_false] at this ⊢ <;> omega

theorem plist_countP_insertIdx {α : Type} (f : α → Bool) :
    ∀ (l : List α) (i : Nat) (x : α), i ≤ l.length →
      ((l.insertIdx i x).countP f : Int)
        = (l.countP f : Int) + (if f x then 1 else 0) := by
  intro l
  induction l with
  | nil =>
    intro i x h
    have hi : i = 0 := by simpa using h
    subst hi
    by_cases hx : f x <;> simp [List.insertIdx, hx]
  | cons a t ih =>
    intro i x h
    cases i with
    | zero =>
      simp only [List.insertIdx_zero, List.countP_cons]
      by_cases hx : f x <;> by_cases ha : f a <;> simp [hx, ha] <;> omega
    | succ n =>
      have hn : n ≤ t.length := by simpa using h
      simp only [List.insertIdx_succ_cons, List.countP_cons]
      have := ih n x hn
      push_cast at this ⊢
      by_cases hx : f x <;> by_cases ha : f a <;>
        simp only [hx, ha, if_true, if_false] at this ⊢ <;> omega

theorem plist_countP_ge {α : Type} (d : α) (f : α → Bool) :
    ∀ (l : List α) (i : Nat), i < l.length → f (l.getD i d) = true →
      1 ≤ l.countP f := by
  intro l
  induction l with
  | nil => intro i h; simp at h
  | cons a t ih =>
    intro i h hf
    cases i with
    | zero =>
      simp only [List.getD_cons_zero] at hf
      simp [List.countP_cons, hf]
    | succ n =>
      have hn : n < t.length := by simpa using h
      simp only [List.getD_cons_succ] at hf
      have := ih n hn hf
      simp only [List.countP_cons]
      omega

theorem plist_findIdx_le_of_pred {α : Type} (d : α) (p : α → Bool) :
    ∀ (l : List α) (k : Nat), k < l.length → p (l.getD k d) = true →
      l.findIdx p ≤ k := by
  intro l
  induction l with
  | nil => intro k h; simp at h
  | cons a t ih =>
    intro k h hp
    cases k with
    | zero =>
      simp only [List.getD_cons_zero] at hp
      simp [List.findIdx_cons, hp]
    | succ n =>
      have hn : n < t.length := by simpa using h
      simp only [List.getD_cons_succ] at hp
      rw [List.findIdx_cons]
      by_cases ha : p a
      · simp [ha]
      · simp only [ha, cond_false]
        have := ih n hn hp
        omega

theorem plist_pred_false_of_lt_findIdx {α : Type} (d : α) (p : α → Bool) :
    ∀ (l : List α) (k : Nat), k < l.findIdx p → p (l.getD k d) = false := by
  intro l
  induction l with
  | nil => intro k h; simp [List.findIdx_nil] at h
  | cons a t ih =>
    intro k h
    rw [List.findIdx_cons] at h
    by_cases ha : p a
    · simp [ha] at h
    · simp only [ha, cond_false] at h
      cases k with
      | zero => simpa using ha
      | succ n =>
        simp only [List.getD_cons_succ]
        exact ih n (by omega)

theorem plist_pred_findIdx {α : Type} (d : α) (p : α → Bool) :
    ∀ (l : List α), l.findIdx p < l.length → p (l.getD (l.findIdx p) d) = true := by
  intro l
  induction l with
  | nil => intro h; simp [List.findIdx_nil] at h
  | cons a t ih =>
    intro h
    rw [List.findIdx_cons]
    by_cases ha : p a
    · simpa [ha] using ha
    · rw [List.findIdx_cons, ] at h
      simp only [ha, cond_false] at h ⊢
      simp only [List.getD_cons_succ]
      exact ih (by simpa using h)

theorem plist_findIdx_eq_of {α : Type} (d : α) (p : α → Bool) :
    ∀ (l : List α) (k : Nat), k < l.length → p (l.getD k d) = true →
      (∀ m, m < k → p (l.getD m d) = false) → l.findIdx p = k := by
  intro l k hk hp hbelow
  have h1 : l.findIdx p ≤ k := plist_findIdx_le_of_pred d p l k hk hp
  rcases Nat.lt_or_ge (l.findIdx p) k with h | h
  · have := hbelow _ h
    have h2 := plist_pred_findIdx d p l (by omega)
    rw [this] at h2
    exact absurd h2 (by simp)
  · omega

theorem plist_findIdx_mono {α : Type} (p q : α → Bool)
    (himp : ∀ x, q x = true → p x = true) :
    ∀ (l : List α), l.findIdx p ≤ l.findIdx q := by
  intro l
  induction l with
  | nil => simp [List.findIdx_nil]
  | cons a t ih =>
    rw [List.findIdx_cons, List.findIdx_cons]
    by_cases hq : q a
    · simp [himp a hq, hq]
    · by_cases hp : p a
      · simp [hp, hq]
      · simp only [hp, hq, cond_false]
        omega

theorem plist_getD_take_drop {α : Type} (d : α) :
    ∀ (l : List α) (lo n m : Nat), m < n →
      (((l.drop lo).take n).getD m d) = l.getD (lo + m) d := by
  intro l
  induction l with
  | nil => intro lo n m _; simp
  | cons a t ih =>
    intro lo n m hm
    cases lo with
    | zero =>
      simp only [List.drop_zero, Nat.zero_add]
      cases n with
      | zero => omega
      | succ n2 =>
        cases m with
        | zero => simp
        | succ k =>
          simp only [List.take_succ_cons, List.getD_cons_succ]
          have := ih 0 n2 k (by omega)
          simpa using this
    | succ lo2 =>
      simp only [List.drop_succ_cons]
      have := ih lo2 n m hm
      simpa [Nat.succ_add] using this

theorem plist_findIdx?_bound_aux {α : Type} (d : α) (p : α → Bool) :
    ∀ (l : List α) (s i : Nat), List.findIdx? p l s = some i →
      s ≤ i ∧ i - s < l.length ∧ p (l.getD (i - s) d) = true := by
  intro l
  induction l with
  | nil => intro s i h; simp [List.findIdx?] at h
  | cons a t ih =>
    intro s i h
    rw [List.findIdx?_cons] at h
    by_cases ha : p a
    · simp only [ha, if_true, Option.some.injEq] at h
      subst h
      exact ⟨Nat.le_refl _, by simp, by simpa using ha⟩
    · simp only [ha, if_false] at h
      rcases ih (s + 1) i h with ⟨h1, h2, h3⟩
      refine ⟨by omega, by simp only [List.length_cons]; omega, ?_⟩
      have he : i - s = (i - (s + 1)) + 1 := by omega
      rw [he]
      simpa using h3

theorem plist_findIdx?_bound {α : Type} (d : α) (p : α → Bool)
    (l : List α) (i : Nat) (h : l.findIdx? p = some i) :
    i < l.length ∧ p (l.getD i d) = true := by
  have := plist_findIdx?_bound_aux d p l 0 i h
  simpa using this

/-! ### Preservation of the candidate-count invariant by the directory ops -/

theorem counterExact_iff (env : Env) (st : PState) :
    counterExact env st ↔
      st.numConnectCandidates
        = (st.peers.countP (fun p => is_connect_candidate env p st.finished) : Int) :=
  Iff.rfl

theorem counterExact_logEvent (env : Env) (st : PState) (e : Event)
    (h : counterExact env st) : counterExact env (logEvent st e) := h

theorem erasePeerAt_finished (env : Env) (i : Nat) (st : PState) :
    (erasePeerAt env i st).finished = st.finished := by
  unfold erasePeerAt
  split <;> rfl

theorem erasePeerAt_avail (env : Env) (i : Nat) (st : PState) :
    (erasePeerAt env i st).availableFreeUpload = st.availableFreeUpload := by
  unfold erasePeerAt
  split <;> rfl

theorem counterExact_erasePeerAt (env : Env) (i : Nat) (st : PState)
    (h : counterExact env st) : counterExact env (erasePeerAt env i st) := by
  unfold erasePeerAt
  split
  · rename_i hlen
    rw [counterExact_iff] at h ⊢
    dsimp only
    have hc := plist_countP_eraseIdx defaultPeer
      (fun p => is_connect_candidate env p st.finished) st.peers i hlen
    simp only [getP] at *
    by_cases hb : is_connect_candidate env (st.peers.getD i defaultPeer) st.finished <;>
      simp only [hb, if_true, if_false] at hc ⊢ <;> omega
  · exact h

theorem counterExact_erasePeerRec (env : Env) (a port : Nat) (st : PState)
    (h : counterExact env st) : counterExact env (erasePeerRec env a port st) := by
  unfold erasePeerRec
  dsimp only
  split
  · exact h
  · exact counterExact_erasePeerAt env _ st h

theorem erasePeerRec_finished (env : Env) (a port : Nat) (st : PState) :
    (erasePeerRec env a port st).finished = st.finished := by
  unfold erasePeerRec
  dsimp only
  split
  · rfl
  · exact erasePeerAt_finished env _ st

theorem erasePeerRec_avail (env : Env) (a port : Nat) (st : PState) :
    (erasePeerRec env a port st).availableFreeUpload = st.availableFreeUpload := by
  unfold erasePeerRec
  dsimp only
  split
  · rfl
  · exact erasePeerAt_avail env _ st

theorem counterExact_of_eq (env : Env) (st st2 : PState)
    (hp : st2.peers = st.peers)
    (hc : st2.numConnectCandidates = st.numConnectCandidates)
    (hf : st2.finished = st.finished)
    (h : counterExact env st) : counterExact env st2 := by
  rw [counterExact_iff, hp, hc, hf]
  exact h

theorem is_connect_candidate_conn_isSome (env : Env) (p : Peer) (fin : Bool)
    (h : p.connection.isSome = true) : is_connect_candidate env p fin = false := by
  unfold is_connect_candidate
  rw [if_pos]
  simp [h]

theorem is_connect_candidate_not_connectable (env : Env) (p : Peer) (fin : Bool)
    (h : p.connectable = false) : is_connect_candidate env p fin = false := by
  unfold is_connect_candidate
  rw [if_pos]
  simp [h]

theorem counterExact_set_pred_eq (env : Env) (st : PState) (i : Nat) (p2 : Peer)
    (hpred : is_connect_candidate env p2 st.finished
      = is_connect_candidate env (getP st.peers i) st.finished)
    (h : counterExact env st) :
    counterExact env { st with peers := st.peers.set i p2 } := by
  by_cases hlen : i < st.peers.length
  · rw [counterExact_iff] at h ⊢
    dsimp only
    have hc := plist_countP_set defaultPeer
      (fun p => is_connect_candidate env p st.finished) st.peers i p2 hlen
    simp only [getP] at hpred
    simp only [hpred] at hc
    omega
  · rw [counterExact_iff] at h ⊢
    dsimp only
    rw [List.set_eq_of_length_le (Nat.le_of_not_lt hlen)]
    exact h

theorem counterExact_set_ccAdjust (env : Env) (st : PState) (idx : Nat)
    (p2 : Peer) (hidx : idx < st.peers.length) (h : counterExact env st) :
    counterExact env { st with
      peers := st.peers.set idx p2
      numConnectCandidates := ccAdjust st.numConnectCandidates
        (is_connect_candidate env (getP st.peers idx) st.finished)
        (is_connect_candidate env p2 st.finished) } := by
  rw [counterExact_iff] at h ⊢
  dsimp only
  have hc := plist_countP_set defaultPeer
    (fun p => is_connect_candidate env p st.finished) st.peers idx p2 hidx
  have hge := plist_countP_ge defaultPeer
    (fun p => is_connect_candidate env p st.finished) st.peers idx hidx
  unfold ccAdjust
  simp only [getP] at *
  by_cases oldc : is_connect_candidate env (st.peers.getD idx defaultPeer)
      st.finished
  · have h1 := hge oldc
    by_cases newc : is_connect_candidate env p2 st.finished <;>
      simp only [oldc, newc, ne_eq, Bool.false_eq_true, Bool.true_eq_false,
        not_false_eq_true, not_true_eq_false, reduceIte] at hc ⊢ <;>
      first
        | omega
        | (split <;> omega)
  · by_cases newc : is_connect_candidate env p2 st.finished <;>
      simp only [oldc, newc, ne_eq, Bool.false_eq_true, Bool.true_eq_false,
        not_false_eq_true, not_true_eq_false, reduceIte] at hc ⊢ <;>
      first
        | omega
        | (split <;> omega)

theorem counterExact_uppFinish (env : Env) (newPort src idx : Nat)
    (st : PState) (h : counterExact env st) :
    counterExact env (uppFinish env newPort src idx st).2 := by
  by_cases hlen : idx < st.peers.length
  · exact counterExact_set_ccAdjust env st idx _ hlen h
  · unfold uppFinish
    dsimp only
    have hdef : getP st.peers idx = defaultPeer :=
      List.getD_eq_default _ _ (Nat.le_of_not_lt hlen)
    have hf1 : is_connect_candidate env (getP st.peers idx) st.finished = false := by
      rw [hdef]
      exact is_connect_candidate_not_connectable env _ _ rfl
    have hf2 : is_connect_candidate env
        (uppUpdatedPeer newPort src (getP st.peers idx)) st.finished = false := by
      rw [hdef]
      exact is_connect_candidate_not_connectable env _ _ rfl
    rw [counterExact_iff]
    dsimp only
    rw [List.set_eq_of_length_le (Nat.le_of_not_lt hlen)]
    rw [hf1, hf2]
    unfold ccAdjust
    simp only [ne_eq, not_true_eq_false, reduceIte]
    exact h

theorem counterExact_apUpdateFound (env : Env) (remote : Endpoint)
    (src flags idx : Nat) (st : PState) (hidx : idx < st.peers.length)
    (h : counterExact env st) :
    counterExact env (apUpdateFound env remote src flags idx st).2 := by
  unfold apUpdateFound
  dsimp only
  refine counterExact_of_eq env _ _ rfl rfl rfl ?_
  exact counterExact_set_ccAdjust env st idx _ hidx h

theorem counterExact_apInsertFresh (env : Env) (remote : Endpoint)
    (src flags pos : Nat) (st : PState) (hpos : pos ≤ st.peers.length)
    (h : counterExact env st) :
    counterExact env (apInsertFresh env remote src flags pos st).2 := by
  rw [counterExact_iff] at h
  unfold apInsertFresh
  dsimp only
  have hc := plist_countP_insertIdx
    (fun p => is_connect_candidate env p st.finished) st.peers pos
    (apFreshPeer env remote src flags) hpos
  split <;>
    rw [counterExact_iff] <;>
    dsimp only <;>
    by_cases hn : is_connect_candidate env (apFreshPeer env remote src flags)
      st.finished <;>
    simp only [hn, if_true, if_false] at hc ⊢ <;> omega

theorem counterExact_erasePeersLoop (env : Env) (maxPL : Nat) :
    ∀ (fuel rr : Nat) (ec : Int) (st : PState), counterExact env st →
      counterExact env (erasePeersLoop env maxPL fuel rr ec st).2 := by
  intro fuel
  induction fuel with
  | zero => intro rr ec st h; exact h
  | succ n ih =>
    intro rr ec st h
    rw [erasePeersLoop]
    dsimp only
    repeat' split
    all_goals
      first
      | exact h
      | exact ih _ _ _ h
      | exact ih _ _ _ (counterExact_erasePeerAt env _ st h)

theorem erasePeersLoop_finished (env : Env) (maxPL : Nat) :
    ∀ (fuel rr : Nat) (ec : Int) (st : PState),
      (erasePeersLoop env maxPL fuel rr ec st).2.finished = st.finished := by
  intro fuel
  induction fuel with
  | zero => intro rr ec st; rfl
  | succ n ih =>
    intro rr ec st
    rw [erasePeersLoop]
    dsimp only
    repeat' split
    all_goals
      first
      | rfl
      | exact ih _ _ _
      | (rw [ih]; exact erasePeerAt_finished env _ st)

theorem erasePeersLoop_avail (env : Env) (maxPL : Nat) :
    ∀ (fuel rr : Nat) (ec : Int) (st : PState),
      (erasePeersLoop env maxPL fuel rr ec st).2.availableFreeUpload
        = st.availableFreeUpload := by
  intro fuel
  induction fuel with
  | zero => intro rr ec st; rfl
  | succ n ih =>
    intro rr ec st
    rw [erasePeersLoop]
    dsimp only
    repeat' split
    all_goals
      first
      | rfl
      | exact ih _ _ _
      | (rw [ih]; exact erasePeerAt_avail env _ st)

theorem counterExact_erase_peers (env : Env) (randv : Nat) (st : PState)
    (h : counterExact env st) : counterExact env (erase_peers env randv st) := by
  unfold erase_peers
  dsimp only
  split
  · exact h
  · split
    · exact counterExact_erasePeerAt env _ _
        (counterExact_erasePeersLoop env _ _ _ _ st h)
    · exact counterExact_erasePeersLoop env _ _ _ _ st h

theorem erase_peers_finished (env : Env) (randv : Nat) (st : PState) :
    (erase_peers env randv st).finished = st.finished := by
  unfold erase_peers
  dsimp only
  split
  · rfl
  · split
    · rw [erasePeerAt_finished, erasePeersLoop_finished]
    · rw [erasePeersLoop_finished]

theorem erase_peers_avail (env : Env) (randv : Nat) (st : PState) :
    (erase_peers env randv st).availableFreeUpload = st.availableFreeUpload := by
  unfold erase_peers
  dsimp only
  split
  · rfl
  · split
    · rw [erasePeerAt_avail, erasePeersLoop_avail]
    · rw [erasePeersLoop_avail]

theorem counterExact_dhtStore (env : Env) (st : PState) (current : Nat)
    (e : Event) (p2 : Peer)
    (hpred : is_connect_candidate env p2 st.finished
      = is_connect_candidate env (getP st.peers current) st.finished)
    (h : counterExact env st) :
    counterExact env { logEvent st e with peers := st.peers.set current p2 } := by
  refine counterExact_of_eq env { st with peers := st.peers.set current p2 } _
    rfl rfl rfl ?_
  exact counterExact_set_pred_eq env st current p2 hpred h

theorem counterExact_fccDht (env : Env) (pinged : Bool) (st : PState)
    (h : counterExact env st) : counterExact env (fccDht env pinged st).2 := by
  unfold fccDht
  dsimp only
  split
  · exact counterExact_dhtStore env st _ _ _ rfl h
  · exact h

theorem counterExact_fccEraseEval (env : Env) (maxPL : Nat)
    (candidate ec : Int) (st : PState) (h : counterExact env st) :
    counterExact env (fccEraseEval env maxPL candidate ec st).2.2 := by
  unfold fccEraseEval
  dsimp only
  repeat' split
  all_goals
    first
    | exact h
    | exact counterExact_erasePeerAt env _ st h

theorem counterExact_fccStep (env : Env) (maxPL mrt eip t : Nat)
    (pinged : Bool) (candidate ec : Int) (st : PState)
    (h : counterExact env st) :
    counterExact env (fccStep env maxPL mrt eip t pinged candidate ec st).2.2.2 := by
  unfold fccStep
  dsimp only
  repeat' split
  all_goals
    exact counterExact_of_eq env _ _ rfl rfl rfl
      (counterExact_fccEraseEval env maxPL _ _ _
        (counterExact_fccDht env _ _
          (by first
            | exact h
            | exact counterExact_of_eq env st _ rfl rfl rfl h)))

theorem counterExact_fccLoop (env : Env) (maxPL mrt eip t : Nat) :
    ∀ (fuel : Nat) (pinged : Bool) (candidate ec : Int) (st : PState),
      counterExact env st →
      counterExact env (fccLoop env maxPL mrt eip t fuel pinged candidate ec st).2.2 := by
  intro fuel
  induction fuel with
  | zero => intro pinged candidate ec st h; exact h
  | succ n ih =>
    intro pinged candidate ec st h
    rw [fccLoop]
    exact ih _ _ _ _ (counterExact_fccStep env maxPL mrt eip t pinged candidate ec st h)

theorem counterExact_find_connect_candidate (env : Env) (t : Nat) (st : PState)
    (h : counterExact env st) :
    counterExact env (find_connect_candidate env t st).2 := by
  unfold find_connect_candidate
  dsimp only
  split <;> split <;> split <;>
    first
    | exact counterExact_erasePeerAt env _ _
        (counterExact_fccLoop env _ _ _ _ _ _ _ _ _
          (counterExact_of_eq env st _ rfl rfl rfl h))
    | exact counterExact_fccLoop env _ _ _ _ _ _ _ _ _
        (counterExact_of_eq env st _ rfl rfl rfl h)
    | exact counterExact_erasePeerAt env _ _
        (counterExact_fccLoop env _ _ _ _ _ _ _ _ _ h)
    | exact counterExact_fccLoop env _ _ _ _ _ _ _ _ _ h

theorem lowerBoundIdx_le_length (l : List Peer) (a : Nat) :
    lowerBoundIdx l a ≤ l.length :=
  List.findIdx_le_length _

theorem upperBoundIdx_le_length (l : List Peer) (a : Nat) :
    upperBoundIdx l a ≤ l.length :=
  List.findIdx_le_length _

theorem lowerBound_le_upperBound (l : List Peer) (a : Nat) :
    lowerBoundIdx l a ≤ upperBoundIdx l a := by
  refine plist_findIdx_mono _ _ ?_ l
  intro x hx
  simp only [decide_eq_true_eq] at hx ⊢
  omega

theorem insertPos_le (env : Env) (l : List Peer) (a : Nat) :
    insertPos env l a ≤ l.length := by
  unfold insertPos
  split
  · exact upperBoundIdx_le_length l a
  · exact lowerBoundIdx_le_length l a

theorem findIdxInRange_le (l : List Peer) (lo hi : Nat) (f : Peer → Bool)
    (hhi : hi ≤ l.length) : findIdxInRange l lo hi f ≤ hi ∨ hi < lo := by
  by_cases hlo : lo ≤ hi
  · left
    unfold findIdxInRange
    have h1 : ((l.drop lo).take (hi - lo)).findIdx f
        ≤ ((l.drop lo).take (hi - lo)).length := List.findIdx_le_length _
    have h2 : ((l.drop lo).take (hi - lo)).length ≤ hi - lo := by
      simp [List.length_take]
    omega
  · right
    omega

theorem findEndpoint_lt (env : Env) (l : List Peer) (r : Endpoint) (i : Nat)
    (h : findEndpoint env l r = some i) : i < l.length := by
  unfold findEndpoint at h
  split at h
  · dsimp only at h
    split at h
    · rename_i hne
      cases h
      have hle := lowerBound_le_upperBound l r.addr
      have hhi := upperBoundIdx_le_length l r.addr
      rcases findIdxInRange_le l (lowerBoundIdx l r.addr) (upperBoundIdx l r.addr)
        (fun q => q.addr == r.addr && q.port == r.port) hhi with hcase | hcase
      · omega
      · omega
    · cases h
  · dsimp only at h
    split at h
    · rename_i hcond
      cases h
      exact hcond.1
    · cases h

theorem counterExact_closeStore (env : Env) (st : PState) (idx : Nat)
    (p3 : Peer) (a2 : Int) (hlen : idx < st.peers.length)
    (hold : is_connect_candidate env (getP st.peers idx) st.finished = false)
    (h : counterExact env st) :
    counterExact env { st with
      peers := st.peers.set idx p3
      numConnectCandidates := st.numConnectCandidates +
        (if is_connect_candidate env p3 st.finished then 1 else 0)
      availableFreeUpload := a2 } := by
  rw [counterExact_iff] at h ⊢
  dsimp only
  have hc := plist_countP_set defaultPeer
    (fun p => is_connect_candidate env p st.finished) st.peers idx p3 hlen
  simp only [getP] at hold
  simp only [hold, Bool.false_eq_true, reduceIte] at hc
  by_cases hn : is_connect_candidate env p3 st.finished <;>
    simp only [hn, reduceIte] at hc ⊢ <;> omega

theorem counterExact_connection_closed (env : Env) (c : CloseInfo) (t : Nat)
    (st : PState) (h : counterExact env st) :
    counterExact env (connection_closed env c t st) := by
  unfold connection_closed
  split
  · exact h
  · rename_i idx heq
    obtain ⟨hlen, hpred⟩ := plist_findIdx?_bound defaultPeer _ _ _ heq
    have hconn : (getP st.peers idx).connection = some c.id := by
      simpa [getP] using hpred
    have hold : is_connect_candidate env (getP st.peers idx) st.finished = false :=
      is_connect_candidate_conn_isSome env _ _ (by rw [hconn]; rfl)
    dsimp only
    split
    · split
      · exact counterExact_erasePeerRec env _ _ _
          (counterExact_closeStore env st idx _ _ hlen hold h)
      · exact counterExact_closeStore env st idx _ _ hlen hold h
    · exact counterExact_closeStore env st idx _ _ hlen hold h

theorem counterExact_update_peer_port (env : Env) (newPort idx src : Nat)
    (st : PState) (h : counterExact env st) :
    counterExact env (update_peer_port env newPort idx src st).2 := by
  unfold update_peer_port
  dsimp only
  repeat' split
  all_goals
    first
    | exact h
    | exact counterExact_logEvent env st _ h
    | exact counterExact_uppFinish env _ _ _ _ h
    | exact counterExact_uppFinish env _ _ _ _
        (counterExact_erasePeerAt env _ st h)

theorem counterExact_add_peer (env : Env) (randv : Nat) (remote : Endpoint)
    (src flags : Nat) (st : PState) (h : counterExact env st) :
    counterExact env (add_peer env randv remote src flags st).2 := by
  unfold add_peer
  dsimp only
  repeat' split
  all_goals
    first
    | exact h
    | exact counterExact_logEvent env st _ h
    | exact counterExact_apUpdateFound env remote src flags _ st
        (findEndpoint_lt env st.peers remote _ (by assumption)) h
    | exact counterExact_erase_peers env randv st h
    | exact counterExact_apInsertFresh env remote src flags _ st
        (insertPos_le env st.peers remote.addr) h
    | exact counterExact_apInsertFresh env remote src flags _ _
        (lowerBoundIdx_le_length (erase_peers env randv st).peers remote.addr)
        (counterExact_erase_peers env randv st h)

theorem counterExact_connect_one_peer_success (env : Env) (t : Nat)
    (st : PState) (i : Nat)
    (hfind : (find_connect_candidate env t st).1 = some i)
    (hcand : is_connect_candidate env
      (getP (find_connect_candidate env t st).2.peers i)
      (find_connect_candidate env t st).2.finished = true)
    (hok : env.connectToPeerOk = true)
    (h : counterExact env st) :
    counterExact env (connect_one_peer env t st).2 := by
  have hF := counterExact_find_connect_candidate env t st h
  unfold connect_one_peer
  dsimp only
  rw [hfind]
  dsimp only
  simp only [hok, reduceIte]
  rw [counterExact_iff] at hF ⊢
  dsimp only
  have hlen : i < (find_connect_candidate env t st).2.peers.length := by
    by_contra hno
    have hd : getP (find_connect_candidate env t st).2.peers i = defaultPeer :=
      List.getD_eq_default _ _ (Nat.le_of_not_lt hno)
    rw [hd, is_connect_candidate_not_connectable env _ _ rfl] at hcand
    exact absurd hcand (by simp)
  have hc := plist_countP_set defaultPeer
    (fun p => is_connect_candidate env p (find_connect_candidate env t st).2.finished)
    (find_connect_candidate env t st).2.peers i
    { getP (find_connect_candidate env t st).2.peers i with
      connection := some env.newConnId } hlen
  have hge := plist_countP_ge defaultPeer
    (fun p => is_connect_candidate env p (find_connect_candidate env t st).2.finished)
    (find_connect_candidate env t st).2.peers i hlen (by simpa [getP] using hcand)
  have hnew : is_connect_candidate env
      { getP (find_connect_candidate env t st).2.peers i with
        connection := some env.newConnId }
      (find_connect_candidate env t st).2.finished = false :=
    is_connect_candidate_conn_isSome env _ _ rfl
  simp only [getP] at hc hcand hnew ⊢
  simp only [hcand, hnew, Bool.false_eq_true, reduceIte] at hc
  omega

/-! ### Claim theorems -/

/-- C1 (amended): starting from any state in which `num_connect_candidates`
equals the exact number of records satisfying the connect-candidate
predicate, that exactness is preserved by `erase_peer`, `erase_peers`,
`add_peer`, `update_peer_port`, `connection_closed`,
`find_connect_candidate`, and by `connect_one_peer` when the chosen record
is a connect candidate (which the source asserts) and the dial succeeds.
The remaining public operations — `new_connection`, a failed
`connect_one_peer` dial, and `recalculate_connect_candidates` — do not
preserve the equality. -/
theorem c1_counter_exactness_preserved (env : Env) (st : PState)
    (h : counterExact env st) :
    (∀ i, counterExact env (erasePeerAt env i st)) ∧
    (∀ randv, counterExact env (erase_peers env randv st)) ∧
    (∀ randv remote src flags,
      counterExact env (add_peer env randv remote src flags st).2) ∧
    (∀ newPort idx src,
      counterExact env (update_peer_port env newPort idx src st).2) ∧
    (∀ c t, counterExact env (connection_closed env c t st)) ∧
    (∀ t, counterExact env (find_connect_candidate env t st).2) ∧
    (∀ t i, (find_connect_candidate env t st).1 = some i →
      is_connect_candidate env
          (getP (find_connect_candidate env t st).2.peers i)
          (find_connect_candidate env t st).2.finished = true →
      env.connectToPeerOk = true →
      counterExact env (connect_one_peer env t st).2) := by
  refine ⟨fun i => counterExact_erasePeerAt env i st h,
    fun randv => counterExact_erase_peers env randv st h,
    fun randv remote src flags =>
      counterExact_add_peer env randv remote src flags st h,
    fun newPort idx src => counterExact_update_peer_port env newPort idx src st h,
    fun c t => counterExact_connection_closed env c t st h,
    fun t => counterExact_find_connect_candidate env t st h,
    fun t i hfind hcand hok =>
      counterExact_connect_one_peer_success env t st i hfind hcand hok h⟩

/-- C1 witness: the preservation theorem applied at the concrete reachable
state `c1Step3`, whose counter is exact, for the `erase_peers`
operation. -/
theorem c1_counter_exactness_preserved_witness :
    counterExact envBase c1Step3 ∧
    counterExact envBase (erase_peers envBase 0 c1Step3) :=
  ⟨by decide,
   (c1_counter_exactness_preserved envBase c1Step3 (by decide)).2.1 0⟩

/-- C1 counterexample: after the reachable sequence — an inbound connection
from address 5 admitted and closed again (leaving a non-connectable
record), then a tracker peer added (the only connect candidate, counter
exactly 1) — a second inbound connection from address 5 matches the
non-candidate record, yet `new_connection` decrements the counter to 0
while the tracker record still satisfies the predicate: the §8.3 equality
fails after a public operation. -/
theorem c1_counterexample :
    counterExact envBase c1Step3 ∧
    (new_connection envBase c1Conn2 30 c1Step3).1 = true ∧
    ¬ counterExact envBase (new_connection envBase c1Conn2 30 c1Step3).2 := by
  decide

/-- C2: with the cached finished flag already equal to
`torrent.is_finished()` and one connect candidate on file (counter exactly
1), `recalculate_connect_candidates` zeroes the counter and returns without
recounting: it does not leave the counter equal to the exact count.  The
zeroing before the early return contradicts the function's purpose and the
(debug-build) invariant `m_num_connect_candidates >= 0`, which a subsequent
`erase_peer` of the remaining candidate would violate. -/
theorem c2_recalculate_zeroes :
    counterExact envBase c2State ∧
    envBase.torrentFinished = c2State.finished ∧
    recalculate_connect_candidates envBase c2State
      = { c2State with numConnectCandidates := 0 } ∧
    candCount envBase c2State.finished c2State.peers = 1 := by
  decide

/-- For every random sweep offset, the eviction sweep on the scenario
directory erases nothing: the loop body never finds an eraseable record,
because r1, r2 and r3 all have `last_connected = 0`. -/
theorem c3_loop_noop (e2 : Env) (m : Nat) (hm : m = 3) :
    ∀ (fuel rr : Nat) (ec : Int),
      erasePeersLoop e2 m fuel rr ec c3State = (ec, c3State) := by
  subst hm
  intro fuel
  have hlc : ∀ k, (getP c3State.peers k).lastConnected = 0 := by
    intro k
    match k with
    | 0 => rfl
    | 1 => rfl
    | 2 => rfl
    | (n + 3) => rfl
  have hcand : ∀ k, is_erase_candidate e2 c3State.finished
      (getP c3State.peers k) = false := by
    intro k
    unfold is_erase_candidate
    rw [hlc k]
    simp
  induction fuel with
  | zero => intro rr ec; rfl
  | succ n ih =>
    intro rr ec
    rw [erasePeersLoop]
    dsimp only
    rw [if_neg (by decide)]
    rw [if_neg (by simp [hcand])]
    exact ih _ _

/-- The eviction sweep leaves the scenario directory untouched for every
random offset: none of r1, r2, r3 is erase-eligible. -/
theorem c3_erase_peers_noop (r : Nat) :
    erase_peers envC3 r c3State = c3State := by
  unfold erase_peers
  rw [if_neg (by decide)]
  dsimp only
  rw [c3_loop_noop envC3 (effectiveMaxPeerlist envC3) rfl]
  rw [if_neg (by decide)]

/-- C3 (amended): with capacity 3 and records r1 (tracker, failcount 0),
r2 (resume data, failcount 1), r3 (DHT, failcount 0) on file,
`add_peer(r4, pex)` runs the eviction sweep but evicts nothing — each
record is still a connect candidate and has `last_connected = 0`, so none
is erase-eligible — and therefore returns failure, leaving the directory
exactly {r1, r2, r3} with `num_connect_candidates == 3`, whatever the
random sweep offset. -/
theorem c3_add_peer_rejected (r : Nat) :
    add_peer envC3 r ⟨4, 10⟩ srcPex 0 c3State = (none, c3State) := by
  unfold add_peer
  rw [c3_erase_peers_noop r]
  decide

/-- C3 counterexample: in the scenario of the claim, `add_peer(r4, pex)`
does not evict r2 and does not insert r4: it returns null and leaves the
directory with addresses [1, 2, 3] (not [1, 3, 4]); the candidate counter
stays 3 only because nothing changed. -/
theorem c3_counterexample :
    (getP c3State.peers 1).source = srcResumeData ∧
    (getP c3State.peers 1).failcount = 1 ∧
    counterExact envC3 c3State ∧
    (add_peer envC3 0 ⟨4, 10⟩ srcPex 0 c3State).1 = none ∧
    (add_peer envC3 0 ⟨4, 10⟩ srcPex 0 c3State).2.peers.map Peer.addr
      = [1, 2, 3] ∧
    (add_peer envC3 0 ⟨4, 10⟩ srcPex 0 c3State).2.peers.map Peer.addr
      ≠ [1, 3, 4] := by
  decide

/-- C8 counterexample: a never-connected record (`last_connected = 0`,
failcount 0) at `session_time = 5` with `min_reconnect_time = 30` satisfies
`session_time − last_connected < (failcount + 1) × min_reconnect_time`
(5 < 30) yet is not skipped — the backoff test of
`find_connect_candidate` also requires `last_connected ≠ 0`, so "skipped
whenever the difference is below the bound" is false as stated. -/
theorem c8_counterexample :
    ((5 : Int) - (c8Fresh.lastConnected : Int)
      < ((c8Fresh.failcount : Int) + 1) * 30) ∧
    reconnect_backoff_skip 5 c8Fresh 30 = false := by
  decide

/-- C8 (amended): a record with a recorded previous attempt
(`last_connected ≠ 0`) is skipped by `find_connect_candidate` exactly when
`session_time − last_connected < (failcount + 1) × min_reconnect_time`; a
record with `last_connected = 0` is never skipped by the backoff.  In the
concrete instance (failcount 2, last_connected 100, min_reconnect_time
30), the record is skipped at session_time 189 and eligible at 190, the
exact-equality boundary being eligible. -/
theorem c8_reconnect_backoff (t2 : Nat) (pe : Peer) (mrt : Nat)
    (h : pe.lastConnected ≠ 0) :
    (reconnect_backoff_skip t2 pe mrt = true ↔
      (t2 : Int) - (pe.lastConnected : Int)
        < ((pe.failcount : Int) + 1) * (mrt : Int)) ∧
    (∀ pe2 : Peer, pe2.lastConnected = 0 →
      reconnect_backoff_skip t2 pe2 mrt = false) ∧
    reconnect_backoff_skip 189 c8Record 30 = true ∧
    reconnect_backoff_skip 190 c8Record 30 = false := by
  refine ⟨?_, ?_, by decide, by decide⟩
  · unfold reconnect_backoff_skip
    simp [h]
  · intro pe2 h2
    unfold reconnect_backoff_skip
    simp [h2]

/-- C8 witness: the amended theorem applied to the concrete record of the
scenario at session_time 189. -/
theorem c8_reconnect_backoff_witness :
    c8Record.lastConnected ≠ 0 ∧ reconnect_backoff_skip 189 c8Record 30 = true :=
  ⟨by decide, (c8_reconnect_backoff 189 c8Record 30 (by decide)).2.2.1⟩

/-- `getD` of an all-false mask is false. -/
theorem plist_getD_replicate (n j : Nat) :
    (List.replicate n false).getD j false = false := by
  induction n generalizing j with
  | zero => simp
  | succ m ih =>
    cases j with
    | zero => simp [List.replicate_succ]
    | succ k =>
      rw [List.replicate_succ, List.getD_cons_succ]
      exact ih k

/-- Pointwise description of the allowed-fast mask construction: a bit is
set iff it was already set or the index is allowed-fast and present in the
bitfield. -/
theorem buildAllowedMask_aux (bits : List Bool) :
    ∀ (fast : List Nat) (m : List Bool), m.length = bits.length →
      ∀ j, ((fast.foldl
          (fun m2 i => if bits.getD i false then m2.set i true else m2) m).getD
            j false)
        = (m.getD j false || (fast.contains j && bits.getD j false)) := by
  intro fast
  induction fast with
  | nil => intro m hm j; simp
  | cons i fs ih =>
    intro m hm j
    simp only [List.foldl_cons]
    by_cases hb : bits.getD i false
    · simp only [hb, reduceIte]
      have hlen : (m.set i true).length = bits.length := by
        rw [List.length_set]; exact hm
      rw [ih (m.set i true) hlen j]
      by_cases hij : i = j
      · subst hij
        have hib : i < m.length := by
          by_contra hno
          rw [List.getD_eq_default _ _ (by omega)] at hb
          exact absurd hb (by simp)
        rw [plist_getD_set_self false m i true hib]
        simp only [List.contains_cons, beq_self_eq_true, Bool.true_or, hb,
          Bool.and_true, Bool.true_and, Bool.or_true]
      · rw [plist_getD_set_ne false m i j true hij]
        have hcc : (List.contains (i :: fs) j) = (List.contains fs j) := by
          simp only [List.contains_cons]
          have : (j == i) = false := by
            simp only [beq_eq_false_iff_ne, ne_eq]
            exact fun hji => hij (hji.symm)
          rw [this]
          simp
        rw [hcc]
    · simp only [hb, Bool.false_eq_true, reduceIte]
      rw [ih m hm j]
      by_cases hij : i = j
      · subst hij
        simp only [hb, Bool.and_false]
      · have hcc : (List.contains (i :: fs) j) = (List.contains fs j) := by
          simp only [List.contains_cons]
          have : (j == i) = false := by
            simp only [beq_eq_false_iff_ne, ne_eq]
            exact fun hji => hij (hji.symm)
          rw [this]
          simp
        rw [hcc]

/-- The allowed-fast mask holds exactly the pieces the peer has that are in
its allowed-fast set. -/
theorem buildAllowedMask_getD (bits : List Bool) (fast : List Nat) (j : Nat) :
    (buildAllowedMask bits fast).getD j false
      = (bits.getD j false && fast.contains j) := by
  unfold buildAllowedMask
  rw [buildAllowedMask_aux bits fast (List.replicate bits.length false)
    (by simp) j]
  rw [plist_getD_replicate]
  simp [Bool.and_comm]

/-- C9: whenever `request_a_block` reaches the piece picker, the bitmask it
passes is the peer's bitfield intersected with its allowed-fast set when
the peer has choked us — so a piece the peer has but that is not
allowed-fast is never offered — and the raw bitfield otherwise. -/
theorem c9_picker_mask (fin : Bool) (c : ReqConn) (m : List Bool)
    (hm : request_a_block_mask fin c = some m) :
    (c.hasPeerChoked = true →
      ∀ j, m.getD j false
        = (c.bitfield.getD j false && c.allowedFast.contains j)) ∧
    (c.hasPeerChoked = true → ∀ j, c.allowedFast.contains j = false →
      m.getD j false = false) ∧
    (c.hasPeerChoked = false → m = c.bitfield) := by
  unfold request_a_block_mask at hm
  dsimp only at hm
  split at hm
  · exact Option.noConfusion hm
  · split at hm
    · exact Option.noConfusion hm
    · split at hm
      · exact Option.noConfusion hm
      · split at hm
        · rename_i hchoked
          obtain rfl := Option.some.inj hm
          refine ⟨fun _ j => buildAllowedMask_getD c.bitfield c.allowedFast j,
            fun _ j hj => ?_, fun hno => absurd hchoked (by simp [hno])⟩
          rw [buildAllowedMask_getD c.bitfield c.allowedFast j, hj]
          simp
        · rename_i hchoked
          obtain rfl := Option.some.inj hm
          refine ⟨fun hyes => ?_, fun hyes => ?_, fun _ => rfl⟩
          · exact absurd hyes (by simpa using hchoked)
          · exact absurd hyes (by simpa using hchoked)

/-- C9 witness: the theorem applied to peer C of spec scenario 6 — piece 3
(present but not allowed-fast) is masked out, piece 5 stays. -/
theorem c9_picker_mask_witness :
    rcC9.hasPeerChoked = true ∧
    (buildAllowedMask rcC9.bitfield rcC9.allowedFast).getD 3 false = false ∧
    (buildAllowedMask rcC9.bitfield rcC9.allowedFast).getD 5 false = true := by
  refine ⟨rfl, ?_, ?_⟩
  · exact (c9_picker_mask false rcC9
      (buildAllowedMask rcC9.bitfield rcC9.allowedFast) rfl).2.1 rfl 3 (by decide)
  · rw [(c9_picker_mask false rcC9
      (buildAllowedMask rcC9.bitfield rcC9.allowedFast) rfl).1 rfl 5]
    decide

/-- Closed form of the crediting loop: every eligible peer is credited
`share` and the pool loses `count · share`. -/
theorem distLoop_spec (share : Int) :
    ∀ (l : List Conn) (fu : Int),
      distLoop share l fu
        = (l.map (fun p => if p.interested && p.shareDiff < 0 then
              { p with freeUpload := p.freeUpload + share } else p),
           fu - (l.countP (fun p => p.interested && p.shareDiff < 0) : Int)
             * share) := by
  intro l
  induction l with
  | nil => intro fu; simp [distLoop]
  | cons p rest ih =>
    intro fu
    rw [distLoop]
    by_cases hp : p.interested && p.shareDiff < 0
    · simp only [hp, reduceIte, ih (fu - share), List.map_cons, List.countP_cons]
      rw [Prod.mk.injEq]
      refine ⟨rfl, ?_⟩
      push_cast
      ring
    · simp only [hp, Bool.false_eq_true, reduceIte, ih fu, List.map_cons,
        List.countP_cons]
      rw [Prod.mk.injEq]
      refine ⟨rfl, ?_⟩
      push_cast
      ring

/-- C4 counterexample: pool 5 with a single eligible peer of share_diff
−100: the claim's formula credits (5 + (−100))/1 = −95 to the peer and
returns 100, but the code credits nothing and returns the pool
unchanged (the negative per-peer share aborts the distribution). -/
theorem c4_counterexample :
    uploadShareOf [c4Peer] 5 = -95 ∧
    distribute_free_upload [c4Peer] 5 = ([c4Peer], 5) := by
  decide

/-- C4 (amended): when the pool is positive, at least one peer is eligible
(interested with negative share_diff), and the per-peer share — the C
truncating division of `min(pool, total_diff)` for nonnegative
`total_diff`, of `pool + total_diff` otherwise, by the eligible count —
is nonnegative, `distribute_free_upload` credits exactly that share to
each eligible peer and returns the pool minus `count · share`; a
nonpositive pool, no eligible peers, or a negative share leave the peers
untouched and return the pool unchanged.  `pulse` stores the returned
remainder into `available_free_upload` whenever the torrent enforces a
ratio. -/
theorem c4_distribute (conns : List Conn) (pool : Int) :
    (0 < pool → eligibleCount conns ≠ 0 → 0 ≤ uploadShareOf conns pool →
      distribute_free_upload conns pool
        = (conns.map (fun p => if p.interested && p.shareDiff < 0 then
              { p with freeUpload := p.freeUpload + uploadShareOf conns pool }
            else p),
           pool - (eligibleCount conns : Int) * uploadShareOf conns pool)) ∧
    (pool ≤ 0 → distribute_free_upload conns pool = (conns, pool)) ∧
    (eligibleCount conns = 0 → distribute_free_upload conns pool = (conns, pool)) ∧
    (0 < pool → uploadShareOf conns pool < 0 →
      distribute_free_upload conns pool = (conns, pool)) ∧
    (∀ (env : Env) (randv : Nat) (st : PState), env.ratioSetting ≠ 0 →
      (pulse env randv conns st).2.availableFreeUpload
        = (distribute_free_upload (collect_free_download conns).1
            (st.availableFreeUpload + (collect_free_download conns).2)).2) := by
  refine ⟨?_, ?_, ?_, ?_, ?_⟩
  · intro hpool hn hshare
    unfold distribute_free_upload
    rw [if_neg (by omega), if_neg hn, if_neg (by omega)]
    rw [distLoop_spec]
    rfl
  · intro hpool
    unfold distribute_free_upload
    rw [if_pos hpool]
  · intro hn
    unfold distribute_free_upload
    repeat' split
    any_goals rfl
    all_goals omega
  · intro hpool hshare
    unfold distribute_free_upload
    repeat' split
    any_goals rfl
    all_goals omega
  · intro env randv st hr
    unfold pulse
    rw [if_pos hr]
    dsimp only
    rw [erase_peers_avail]

/-- C4 witness: spec scenario 5 — pool 80, peers (interested, −100),
(not interested, +80), (interested, −40): total_diff = −60, two eligible
peers, share (80 − 60)/2 = 10, each credited 10, remainder 60. -/
theorem c4_distribute_witness :
    distribute_free_upload c4Scenario 80
      = ([⟨true, -100, 10⟩, ⟨false, 80, 0⟩, ⟨true, -40, 10⟩], 60) :=
  ((c4_distribute c4Scenario 80).1 (by decide) (by decide) (by decide)).trans
    (by decide)

/-- C10: when `connection_closed` handles a tracked connection, the
connection's `share_diff` is added to `available_free_upload` exactly when
the torrent's share ratio is nonzero, and the payload totals are folded
into the record's `prev_amount_*` fields (stated here for the case in
which the record is not subsequently dropped by the resume-data sweep). -/
theorem c10_connection_closed (env : Env) (c : CloseInfo) (t : Nat)
    (st : PState) (idx : Nat)
    (hfind : st.peers.findIdx? (fun p => p.connection == some c.id) = some idx) :
    (env.ratioSetting ≠ 0 →
      (connection_closed env c t st).availableFreeUpload
        = st.availableFreeUpload + c.shareDiff) ∧
    (env.ratioSetting = 0 →
      (connection_closed env c t st).availableFreeUpload
        = st.availableFreeUpload) ∧
    (env.torrentIsSeed = false → 10 * st.peers.length < 9 * env.maxPeerlistSize →
      (getP (connection_closed env c t st).peers idx).prevAmountDownload
          = (getP st.peers idx).prevAmountDownload + c.totalPayloadDownload ∧
      (getP (connection_closed env c t st).peers idx).prevAmountUpload
          = (getP st.peers idx).prevAmountUpload + c.totalPayloadUpload) := by
  obtain ⟨hlen, hpred⟩ := plist_findIdx?_bound defaultPeer _ _ _ hfind
  have key : (connection_closed env c t st).availableFreeUpload
      = st.availableFreeUpload
        + (if env.ratioSetting ≠ 0 then c.shareDiff else 0) := by
    unfold connection_closed
    rw [hfind]
    dsimp only
    repeat' split
    all_goals first | rw [erasePeerRec_avail] | rfl
  refine ⟨?_, ?_, ?_⟩
  · intro hr
    rw [key, if_pos hr]
  · intro hr
    rw [key, if_neg (by omega)]
    omega
  · intro hseed hsize
    unfold connection_closed
    rw [hfind]
    dsimp only
    rw [if_neg (by
      simp only [hseed, Bool.false_eq_true, false_or, List.length_set, not_le]
      omega)]
    dsimp only
    rw [getP, getP, plist_getD_set_self defaultPeer st.peers idx _ hlen]
    unfold ccClosedPeer
    dsimp only
    constructor
    · repeat' split
      all_goals rfl
    · repeat' split
      all_goals rfl

theorem c10_connection_closed_witness :
    (connection_closed envRatio c10Close 7 c10State).availableFreeUpload = 55 ∧
    (getP (connection_closed envRatio c10Close 7 c10State).peers 0).prevAmountDownload
      = 1000 := by
  have h := c10_connection_closed envRatio c10Close 7 c10State 0 (by decide)
  exact ⟨(h.1 (by decide)).trans (by decide),
         ((h.2.2 (by decide) (by decide)).1).trans (by decide)⟩

/-- C5: duplicate handling in `new_connection` when the matching record
already has a live connection `j`: a self-connection (the other socket's
remote endpoint equals this socket's local endpoint or vice versa)
disconnects both sides with reason "connected to ourselves" and rejects;
otherwise an established existing connection or an outbound new one
disconnects the new connection as "duplicate connection, closing" and
rejects; otherwise the existing connection is disconnected as "incoming
duplicate connection with higher priority, closing" and the new one is
kept and attached to the record. -/
theorem c5_duplicate_connection (env : Env) (c : ConnInfo) (t : Nat)
    (st : PState) (idx j : Nat)
    (hcaps : ¬(env.torrentNumPeers ≥ env.torrentMaxConnections
      ∧ env.sesNumConnections ≥ env.sesMaxConnections
      ∧ c.remote.addr ≠ env.trackerAddr))
    (hfound : findEndpoint env st.peers c.remote = some idx)
    (hban : (getP st.peers idx).banned = false)
    (hconn : (getP st.peers idx).connection = some j) :
    (env.connRemote j = c.localEp ∨ env.connLocal j = c.remote →
      new_connection env c t st
        = (false, logEvent
            (logEvent st (.disconnect c.id "connected to ourselves"))
            (.disconnect j "connected to ourselves"))) ∧
    (¬(env.connRemote j = c.localEp ∨ env.connLocal j = c.remote) →
      (¬ env.connConnecting j ∨ c.isLocal) →
      new_connection env c t st
        = (false,
           logEvent st (.disconnect c.id "duplicate connection, closing"))) ∧
    (¬(env.connRemote j = c.localEp ∨ env.connLocal j = c.remote) →
      env.connConnecting j = true → c.isLocal = false →
      (new_connection env c t st).1 = true ∧
      (new_connection env c t st).2.events
        = st.events ++ [Event.disconnect j
            "incoming duplicate connection with higher priority, closing"] ∧
      (getP (new_connection env c t st).2.peers idx).connection
        = some c.id) := by
  have hlen := findEndpoint_lt env st.peers c.remote idx hfound
  unfold new_connection
  rw [if_neg hcaps, hfound]
  dsimp only
  simp only [hban, Bool.false_eq_true, reduceIte]
  rw [hconn]
  dsimp only
  refine ⟨?_, ?_, ?_⟩
  · intro hself
    rw [if_pos hself]
  · intro hself hdup
    rw [if_neg hself, if_pos hdup]
  · intro hself hconn2 hlocal
    rw [if_neg hself, if_neg (by simp [hconn2, hlocal])]
    unfold ncFoundTail ncAttach
    dsimp only
    refine ⟨rfl, rfl, ?_⟩
    simp only [getP, logEvent]
    rw [plist_getD_set_self defaultPeer _ idx _ hlen]

theorem c5_duplicate_connection_witness :
    new_connection envC5self c5NewConn 1 c5State
      = (false, logEvent
          (logEvent c5State (.disconnect 9 "connected to ourselves"))
          (.disconnect 3 "connected to ourselves")) ∧
    (new_connection envC5keep c5NewConn 1 c5State).1 = true := by
  constructor
  · exact (c5_duplicate_connection envC5self c5NewConn 1 c5State 0 3
      (by decide) (by decide) (by decide) (by decide)).1 (by decide)
  · exact ((c5_duplicate_connection envC5keep c5NewConn 1 c5State 0 3
      (by decide) (by decide) (by decide) (by decide)).2.2
      (by decide) (by decide) (by decide)).1

/-- C7: the rejection guards of `add_peer`.  A zero address or port is
refused with the directory untouched; a port-filtered or IP-filtered
endpoint is refused, posting a peer-blocked alert exactly when the alert
stream accepts one; an unknown endpoint hitting a full directory is
refused outright when the source is resume data, while any other source
first runs the `erase_peers` sweep and inserts only if a slot was freed. -/
theorem c7_add_peer_guards (env : Env) (randv : Nat) (remote : Endpoint)
    (src flags : Nat) (st : PState) :
    (remote.addr = 0 ∨ remote.port = 0 →
      add_peer env randv remote src flags st = (none, st)) ∧
    (¬(remote.addr = 0 ∨ remote.port = 0) →
      env.portBlocked remote.port = true →
      add_peer env randv remote src flags st
        = (none, if env.shouldPostPeerBlocked then
              logEvent st (.peerBlockedAlert remote.addr) else st)) ∧
    (¬(remote.addr = 0 ∨ remote.port = 0) →
      env.portBlocked remote.port = false →
      env.ipBlocked remote.addr = true →
      add_peer env randv remote src flags st
        = (none, if env.shouldPostPeerBlocked then
              logEvent st (.peerBlockedAlert remote.addr) else st)) ∧
    (¬(remote.addr = 0 ∨ remote.port = 0) →
      env.portBlocked remote.port = false →
      env.ipBlocked remote.addr = false →
      findEndpoint env st.peers remote = none →
      effectiveMaxPeerlist env ≠ 0 ∧
        st.peers.length ≥ effectiveMaxPeerlist env →
      src = srcResumeData →
      add_peer env randv remote src flags st = (none, st)) ∧
    (¬(remote.addr = 0 ∨ remote.port = 0) →
      env.portBlocked remote.port = false →
      env.ipBlocked remote.addr = false →
      findEndpoint env st.peers remote = none →
      effectiveMaxPeerlist env ≠ 0 ∧
        st.peers.length ≥ effectiveMaxPeerlist env →
      src ≠ srcResumeData →
      add_peer env randv remote src flags st
        = (if (erase_peers env randv st).peers.length ≥ effectiveMaxPeerlist env
           then (none, erase_peers env randv st)
           else apInsertFresh env remote src flags
             (lowerBoundIdx (erase_peers env randv st).peers remote.addr)
             (erase_peers env randv st))) := by
  refine ⟨?_, ?_, ?_, ?_, ?_⟩
  · intro hz
    unfold add_peer
    rw [if_pos hz]
  · intro hz hp
    unfold add_peer
    rw [if_neg hz, if_pos hp]
  · intro hz hp hip
    unfold add_peer
    rw [if_neg hz]
    simp only [hp, Bool.false_eq_true, reduceIte]
    rw [if_pos hip]
  · intro hz hp hip hfind hcap hsrc
    unfold add_peer
    rw [if_neg hz]
    simp only [hp, hip, Bool.false_eq_true, reduceIte]
    rw [hfind]
    dsimp only
    rw [if_pos hcap, if_pos hsrc]
  · intro hz hp hip hfind hcap hsrc
    unfold add_peer
    rw [if_neg hz]
    simp only [hp, hip, Bool.false_eq_true, reduceIte]
    rw [hfind]
    dsimp only
    rw [if_pos hcap, if_neg hsrc]

theorem c7_add_peer_guards_witness :
    add_peer envCap1 0 ⟨3, 5⟩ srcResumeData 0 c7State = (none, c7State) :=
  (c7_add_peer_guards envCap1 0 ⟨3, 5⟩ srcResumeData 0 c7State).2.2.2.1
    (by decide) (by decide) (by decide) (by decide) (by decide) (by decide)

/-- C6: `update_peer_port` with multiple connections per IP enabled, a
changed port, and another record already present at `(address, new_port)`
(witnessed as the record the in-run lookup finds): a connectionless
duplicate is erased and the update proceeds — the call succeeds and the
relocated record carries the new port with the source bit OR'd in, the
candidate counter being adjusted by `uppFinish` — while a duplicate with a
live connection makes the call fail as a duplicate and leaves every record,
in particular the record's port, unchanged. -/
theorem c6_update_peer_port (env : Env) (newPort idx src j : Nat) (st : PState)
    (hmulti : env.allowMultiplePerIp = true)
    (hidx : idx < st.peers.length)
    (hport : ¬ (getP st.peers idx).port = newPort)
    (hj : findIdxInRange st.peers
        (lowerBoundIdx st.peers (getP st.peers idx).addr)
        (upperBoundIdx st.peers (getP st.peers idx).addr)
        (fun q => q.addr == (getP st.peers idx).addr && q.port == newPort) = j)
    (hjlt : j < st.peers.length)
    (hjport : (getP st.peers j).port = newPort) :
    ((getP st.peers j).connection = none →
      update_peer_port env newPort idx src st
        = uppFinish env newPort src (if j < idx then idx - 1 else idx)
            (erasePeerAt env j st) ∧
      (update_peer_port env newPort idx src st).1 = true ∧
      getP (update_peer_port env newPort idx src st).2.peers
          (if j < idx then idx - 1 else idx)
        = uppUpdatedPeer newPort src (getP st.peers idx)) ∧
    ((getP st.peers j).connection.isSome = true →
      update_peer_port env newPort idx src st
        = (false, logEvent st (.disconnect
            ((getP st.peers idx).connection.getD 0) "duplicate connection")) ∧
      (update_peer_port env newPort idx src st).2.peers = st.peers) := by
  have hne : j ≠ idx := by
    intro h
    rw [h] at hjport
    exact hport hjport
  have hpeersE : (erasePeerAt env j st).peers = st.peers.eraseIdx j := by
    unfold erasePeerAt
    rw [if_pos hjlt]
  have hlenE : (st.peers.eraseIdx j).length = st.peers.length - 1 := by
    rw [List.length_eraseIdx]
    simp [hjlt]
  have hgetE : getP (erasePeerAt env j st).peers (if j < idx then idx - 1 else idx)
      = getP st.peers idx := by
    rw [hpeersE]
    unfold getP
    rcases Nat.lt_or_ge j idx with hlt | hge
    · rw [if_pos hlt,
        plist_getD_eraseIdx_of_ge defaultPeer st.peers j (idx - 1) (by omega)]
      have hx : idx - 1 + 1 = idx := by omega
      rw [hx]
    · rw [if_neg (by omega),
        plist_getD_eraseIdx_of_lt defaultPeer st.peers j idx (by omega)]
  have hidxE : (if j < idx then idx - 1 else idx)
      < (erasePeerAt env j st).peers.length := by
    rw [hpeersE, hlenE]
    rcases Nat.lt_or_ge j idx with hlt | hge
    · rw [if_pos hlt]; omega
    · rw [if_neg (by omega)]; omega
  unfold update_peer_port
  dsimp only
  rw [if_neg hport]
  simp only [hmulti, reduceIte]
  rw [hj, if_pos (Nat.ne_of_lt hjlt)]
  constructor
  · intro hcnone
    simp only [hcnone, Option.isSome_none, Bool.false_eq_true, reduceIte]
    refine ⟨by trivial, by trivial, ?_⟩
    unfold uppFinish
    dsimp only
    rw [getP, plist_getD_set_self defaultPeer _ _ _ hidxE, hgetE]
  · intro hsome
    rw [if_pos hsome]
    exact ⟨rfl, rfl⟩

theorem c6_update_peer_port_witness :
    (update_peer_port envMulti 20 0 srcDht c6State).1 = true ∧
    getP (update_peer_port envMulti 20 0 srcDht c6State).2.peers 0
      = uppUpdatedPeer 20 srcDht c6p0 ∧
    update_peer_port envMulti 20 0 srcDht c6StateC
      = (false, logEvent c6StateC (.disconnect 5 "duplicate connection")) := by
  have h1 := c6_update_peer_port envMulti 20 0 srcDht 1 c6State
    (by decide) (by decide) (by decide) (by decide) (by decide) (by decide)
  have h2 := c6_update_peer_port envMulti 20 0 srcDht 1 c6StateC
    (by decide) (by decide) (by decide) (by decide) (by decide) (by decide)
  refine ⟨(h1.1 (by decide)).2.1, ?_, (h2.2 (by decide)).1⟩
  have h3 := (h1.1 (by decide)).2.2
  simpa using h3
